import Mathlib

/-!
Verification of the eywa-clients Python RPC layer against its specification.

The development shallowly embeds the JSON-RPC transport/dispatch layer of the
repository:
  - a model of Python JSON values (ints for numbers; the clients only ever
    produce and consume JSON-compatible data),
  - a model of Python json.dumps (default separators, ensure_ascii) and
    json.loads (strict mode),
  - the thread-based client of src/py/src/rpc.py (generate_request,
    generate_response, generate_error, the EYWA class send / handle paths,
    the Line reader thread, the RPCError taxonomy),
  - the asyncio client of src/py/src/eywa/eywa.py (handle_data,
    handle_request, handle_response, send_request, send_notification,
    read_stdin),
  - the 3-step upload protocol of src/py/src/eywa_files.py.
-/

/-- Model of a decoded Python JSON value. Numbers are modelled as integers:
every message this client builds or consumes carries int ids and
JSON-compatible payloads, and the claims under study never involve floats. -/
inductive Json where
  | null
  | bool (b : Bool)
  | num (n : Int)
  | str (s : String)
  | arr (elts : List Json)
  | obj (fields : List (String × Json))

mutual
def jdec : (a b : Json) → Decidable (a = b)
  | .null, .null => isTrue rfl
  | .bool a, .bool b =>
    match decEq a b with
    | isTrue h => isTrue (by rw [h])
    | isFalse h => isFalse (fun hh => by cases hh; exact h rfl)
  | .num a, .num b =>
    match decEq a b with
    | isTrue h => isTrue (by rw [h])
    | isFalse h => isFalse (fun hh => by cases hh; exact h rfl)
  | .str a, .str b =>
    match decEq a b with
    | isTrue h => isTrue (by rw [h])
    | isFalse h => isFalse (fun hh => by cases hh; exact h rfl)
  | .arr a, .arr b =>
    match jdecList a b with
    | isTrue h => isTrue (by rw [h])
    | isFalse h => isFalse (fun hh => by cases hh; exact h rfl)
  | .obj a, .obj b =>
    match jdecFields a b with
    | isTrue h => isTrue (by rw [h])
    | isFalse h => isFalse (fun hh => by cases hh; exact h rfl)
  | .null, .bool _ => isFalse (fun h => Json.noConfusion h)
  | .null, .num _ => isFalse (fun h => Json.noConfusion h)
  | .null, .str _ => isFalse (fun h => Json.noConfusion h)
  | .null, .arr _ => isFalse (fun h => Json.noConfusion h)
  | .null, .obj _ => isFalse (fun h => Json.noConfusion h)
  | .bool _, .null => isFalse (fun h => Json.noConfusion h)
  | .bool _, .num _ => isFalse (fun h => Json.noConfusion h)
  | .bool _, .str _ => isFalse (fun h => Json.noConfusion h)
  | .bool _, .arr _ => isFalse (fun h => Json.noConfusion h)
  | .bool _, .obj _ => isFalse (fun h => Json.noConfusion h)
  | .num _, .null => isFalse (fun h => Json.noConfusion h)
  | .num _, .bool _ => isFalse (fun h => Json.noConfusion h)
  | .num _, .str _ => isFalse (fun h => Json.noConfusion h)
  | .num _, .arr _ => isFalse (fun h => Json.noConfusion h)
  | .num _, .obj _ => isFalse (fun h => Json.noConfusion h)
  | .str _, .null => isFalse (fun h => Json.noConfusion h)
  | .str _, .bool _ => isFalse (fun h => Json.noConfusion h)
  | .str _, .num _ => isFalse (fun h => Json.noConfusion h)
  | .str _, .arr _ => isFalse (fun h => Json.noConfusion h)
  | .str _, .obj _ => isFalse (fun h => Json.noConfusion h)
  | .arr _, .null => isFalse (fun h => Json.noConfusion h)
  | .arr _, .bool _ => isFalse (fun h => Json.noConfusion h)
  | .arr _, .num _ => isFalse (fun h => Json.noConfusion h)
  | .arr _, .str _ => isFalse (fun h => Json.noConfusion h)
  | .arr _, .obj _ => isFalse (fun h => Json.noConfusion h)
  | .obj _, .null => isFalse (fun h => Json.noConfusion h)
  | .obj _, .bool _ => isFalse (fun h => Json.noConfusion h)
  | .obj _, .num _ => isFalse (fun h => Json.noConfusion h)
  | .obj _, .str _ => isFalse (fun h => Json.noConfusion h)
  | .obj _, .arr _ => isFalse (fun h => Json.noConfusion h)
def jdecList : (a b : List Json) → Decidable (a = b)
  | [], [] => isTrue rfl
  | a :: as, b :: bs =>
    match jdec a b, jdecList as bs with
    | isTrue h1, isTrue h2 => isTrue (by rw [h1, h2])
    | isFalse h1, _ => isFalse (fun hh => by cases hh; exact h1 rfl)
    | _, isFalse h2 => isFalse (fun hh => by cases hh; exact h2 rfl)
  | [], _ :: _ => isFalse (fun h => List.noConfusion h)
  | _ :: _, [] => isFalse (fun h => List.noConfusion h)
def jdecFields : (a b : List (String × Json)) → Decidable (a = b)
  | [], [] => isTrue rfl
  | (k, v) :: as, (k2, v2) :: bs =>
    match decEq k k2, jdec v v2, jdecFields as bs with
    | isTrue h0, isTrue h1, isTrue h2 => isTrue (by rw [h0, h1, h2])
    | isFalse h0, _, _ => isFalse (fun hh => by cases hh; exact h0 rfl)
    | _, isFalse h1, _ => isFalse (fun hh => by cases hh; exact h1 rfl)
    | _, _, isFalse h2 => isFalse (fun hh => by cases hh; exact h2 rfl)
  | [], _ :: _ => isFalse (fun h => List.noConfusion h)
  | _ :: _, [] => isFalse (fun h => List.noConfusion h)
end

instance : DecidableEq Json := jdec

/-- Python dict lookup on an association-list representation of a dict
(keys of a Python dict are unique; first match). -/
def kvGet {κ α : Type} [DecidableEq κ] : List (κ × α) → κ → Option α
  | [], _ => none
  | (k2, v) :: rest, k => if k2 = k then some v else kvGet rest k

/-- Python dict assignment d[k] = v: overwrite in place when the key
exists (keeping its position), append otherwise. -/
def kvSet {κ α : Type} [DecidableEq κ] : List (κ × α) → κ → α → List (κ × α)
  | [], k, v => [(k, v)]
  | (k2, v2) :: rest, k, v =>
    if k2 = k then (k2, v) :: rest else (k2, v2) :: kvSet rest k v

/-- Python `del d[k]`: removal of the (unique) entry with the given key. -/
def kvDel {κ α : Type} [DecidableEq κ] : List (κ × α) → κ → List (κ × α)
  | [], _ => []
  | (k2, v2) :: rest, k =>
    if k2 = k then rest else (k2, v2) :: kvDel rest k

/-- Python `k in d`. -/
def kvHas {κ α : Type} [DecidableEq κ] (l : List (κ × α)) (k : κ) : Bool :=
  (kvGet l k).isSome

/-- Model of Python data.get(key) on a decoded JSON object: none when the
key is absent or the value is not a dict. -/
def jget : Json → String → Option Json
  | .obj fields, k => kvGet fields k
  | _, _ => none

/-- Python truthiness of a decoded JSON value: None, False, 0, empty string,
empty list and empty dict are falsy. -/
def truthy : Json → Bool
  | .null => false
  | .bool b => b
  | .num n => decide (n ≠ 0)
  | .str s => decide (s ≠ "")
  | .arr xs => !xs.isEmpty
  | .obj fs => !fs.isEmpty

/-- Truthiness of an optional value, as in Python `if data.get(k):` where a
missing key yields the falsy None. -/
def truthyOpt : Option Json → Bool
  | none => false
  | some j => truthy j

/-- Python `k in obj` on a decoded JSON object. -/
def jhas (j : Json) (k : String) : Bool :=
  (jget j k).isSome

/-- Decimal digit character for a digit value below ten. -/
def digitCharOf (m : Nat) : Char :=
  if m = 0 then '0' else if m = 1 then '1' else if m = 2 then '2'
  else if m = 3 then '3' else if m = 4 then '4' else if m = 5 then '5'
  else if m = 6 then '6' else if m = 7 then '7' else if m = 8 then '8'
  else '9'

/-- Fuel-driven accumulator loop producing the decimal digits of n in front
of acc; fuel at least n always suffices. -/
def digitsAux : Nat → Nat → List Char → List Char
  | 0, _, acc => acc
  | fuel + 1, n, acc =>
    if n = 0 then acc
    else digitsAux fuel (n / 10) (digitCharOf (n % 10) :: acc)

/-- Decimal representation of a natural number, as a character list. -/
def natChars (n : Nat) : List Char :=
  if n = 0 then ['0'] else digitsAux n n []

/-- Decimal representation of a Python int, matching both str.format of an
int and json.dumps of an int. -/
def intChars : Int → List Char
  | .ofNat n => natChars n
  | .negSucc m => '-' :: natChars (m + 1)

/-- Decimal representation of a Python int as a string. -/
def intStr (n : Int) : String := String.mk (intChars n)

/-- Lowercase hexadecimal digit character for a value below sixteen. -/
def hexDigitChar (m : Nat) : Char :=
  if m = 0 then '0' else if m = 1 then '1' else if m = 2 then '2'
  else if m = 3 then '3' else if m = 4 then '4' else if m = 5 then '5'
  else if m = 6 then '6' else if m = 7 then '7' else if m = 8 then '8'
  else if m = 9 then '9' else if m = 10 then 'a' else if m = 11 then 'b'
  else if m = 12 then 'c' else if m = 13 then 'd' else if m = 14 then 'e'
  else 'f'

/-- Four-hex-digit escape body emitted by json.dumps for a code unit. -/
def uEscape (n : Nat) : List Char :=
  ['\\', 'u', hexDigitChar (n / 4096 % 16), hexDigitChar (n / 256 % 16),
   hexDigitChar (n / 16 % 16), hexDigitChar (n % 16)]

/-- The escape sequence json.dumps (ensure_ascii, the default) produces for
one character of a string: quote and backslash are backslash-escaped, the
usual control shorthands are used, printable ASCII passes through, and
everything else becomes one or two (surrogate pair) \uXXXX escapes. -/
def escapeChar (c : Char) : List Char :=
  if c = '"' then ['\\', '"']
  else if c = '\\' then ['\\', '\\']
  else if c = '\x08' then ['\\', 'b']
  else if c = '\x09' then ['\\', 't']
  else if c = '\x0a' then ['\\', 'n']
  else if c = '\x0c' then ['\\', 'f']
  else if c = '\x0d' then ['\\', 'r']
  else if 32 ≤ c.toNat ∧ c.toNat ≤ 126 then [c]
  else if c.toNat ≤ 0xFFFF then uEscape c.toNat
  else uEscape (0xD800 + (c.toNat - 0x10000) / 1024) ++
       uEscape (0xDC00 + (c.toNat - 0x10000) % 1024)

/-- String-body serialization of json.dumps: each character escaped. -/
def serStr : List Char → List Char
  | [] => []
  | c :: cs => escapeChar c ++ serStr cs

mutual
/-- Serialization of a JSON value exactly as Python json.dumps renders it
with its default separators (a space after each comma and colon). -/
def serValue : Json → List Char
  | .null => 'n' :: ['u', 'l', 'l']
  | .bool true => 't' :: ['r', 'u', 'e']
  | .bool false => 'f' :: ['a', 'l', 's', 'e']
  | .num n => intChars n
  | .str s => '"' :: (serStr s.data ++ ['"'])
  | .arr vs => '[' :: (serElems vs ++ [']'])
  | .obj fs => '\x7b' :: (serMembers fs ++ ['\x7d'])
/-- Array elements joined by a comma and space, as json.dumps does. -/
def serElems : List Json → List Char
  | [] => []
  | [v] => serValue v
  | v :: v2 :: vs => serValue v ++ [',', ' '] ++ serElems (v2 :: vs)
/-- Object members rendered as "key": value joined by comma-space. -/
def serMembers : List (String × Json) → List Char
  | [] => []
  | [(k, v)] => '"' :: (serStr k.data ++ ['"', ':', ' ']) ++ serValue v
  | (k, v) :: f :: fs =>
      '"' :: (serStr k.data ++ ['"', ':', ' ']) ++ serValue v ++ [',', ' '] ++
      serMembers (f :: fs)
end

/-- Model of Python json.dumps with its default options. -/
def json_dumps (v : Json) : String := String.mk (serValue v)

/-- Decimal digit test used by the number scanner. -/
def isDigitChar (c : Char) : Bool := 48 ≤ c.toNat && c.toNat ≤ 57

/-- Greedy decimal scanner: consumes leading digits, folding them onto acc. -/
def parseNatAux : Nat → List Char → Nat × List Char
  | acc, [] => (acc, [])
  | acc, c :: rest =>
    if isDigitChar c then parseNatAux (acc * 10 + (c.toNat - 48)) rest
    else (acc, c :: rest)

/-- JSON number parser, restricted to the integers of the model: an optional
minus sign followed by a digit run. -/
def parseNumber : List Char → Option (Json × List Char)
  | [] => none
  | c :: rest =>
    if c = '-' then
      match rest with
      | c2 :: _ =>
        if isDigitChar c2 then
          let p := parseNatAux 0 rest
          some (.num (-(p.1 : Int)), p.2)
        else none
      | [] => none
    else if isDigitChar c then
      let p := parseNatAux 0 (c :: rest)
      some (.num (p.1 : Int), p.2)
    else none

/-- Hexadecimal digit value of a character, accepting both cases. -/
def hexVal (c : Char) : Option Nat :=
  if 48 ≤ c.toNat ∧ c.toNat ≤ 57 then some (c.toNat - 48)
  else if 97 ≤ c.toNat ∧ c.toNat ≤ 102 then some (c.toNat - 87)
  else if 65 ≤ c.toNat ∧ c.toNat ≤ 70 then some (c.toNat - 55)
  else none

/-- Reads four hex digits, returning their 16-bit value. -/
def parseHex4 : List Char → Option (Nat × List Char)
  | a :: b :: c :: d :: rest =>
    match hexVal a, hexVal b, hexVal c, hexVal d with
    | some x, some y, some z, some w =>
      some (x * 4096 + y * 256 + z * 16 + w, rest)
    | _, _, _, _ => none
  | _ => none

/-- Handling of one \uXXXX escape body (after the backslash and u have
been consumed): a non-surrogate code unit yields its character; a high
surrogate must be followed by a second escape holding a low surrogate, the
pair combining to one character; lone surrogates are unrepresentable in
the model and rejected. -/
def parseUnicode (cs : List Char) : Option (Char × List Char) :=
  match parseHex4 cs with
  | none => none
  | some (v, rest3) =>
    if v < 0xD800 || 0xDFFF < v then some (Char.ofNat v, rest3)
    else if v ≤ 0xDBFF then
      match rest3 with
      | b1 :: u1 :: rest4 =>
        if b1 = '\\' && u1 = 'u' then
          match parseHex4 rest4 with
          | none => none
          | some (w, rest5) =>
            if 0xDC00 ≤ w && w ≤ 0xDFFF then
              some (Char.ofNat (0x10000 + (v - 0xD800) * 1024 + (w - 0xDC00)),
                rest5)
            else none
        else none
      | _ => none
    else none

/-- String body parser of json.loads (strict mode), to be run after the
opening quote: literal characters except quote, backslash and raw control
characters; the standard escapes; \uXXXX escapes via parseUnicode.
Fuel larger than the character count always suffices. -/
def parseStringBody : Nat → List Char → List Char → Option (String × List Char)
  | 0, _, _ => none
  | _ + 1, [], _ => none
  | fuel + 1, c :: rest, acc =>
    if c = '"' then some (String.mk acc.reverse, rest)
    else if c = '\\' then
      match rest with
      | [] => none
      | e :: rest2 =>
        if e = '"' then parseStringBody fuel rest2 ('"' :: acc)
        else if e = '\\' then parseStringBody fuel rest2 ('\\' :: acc)
        else if e = '/' then parseStringBody fuel rest2 ('/' :: acc)
        else if e = 'b' then parseStringBody fuel rest2 ('\x08' :: acc)
        else if e = 't' then parseStringBody fuel rest2 ('\x09' :: acc)
        else if e = 'n' then parseStringBody fuel rest2 ('\x0a' :: acc)
        else if e = 'f' then parseStringBody fuel rest2 ('\x0c' :: acc)
        else if e = 'r' then parseStringBody fuel rest2 ('\x0d' :: acc)
        else if e = 'u' then
          match parseUnicode rest2 with
          | none => none
          | some (ch, rest3) => parseStringBody fuel rest3 (ch :: acc)
        else none
    else if c.toNat < 32 then none
    else parseStringBody fuel rest (c :: acc)

/-- Skips JSON whitespace. -/
def skipWs : List Char → List Char
  | [] => []
  | c :: rest =>
    if c = ' ' || c = '\x0a' || c = '\x09' || c = '\x0d' then skipWs rest
    else c :: rest

mutual
/-- Recursive-descent JSON value parser of the json.loads model,
dispatching on the first non-whitespace character. Fuel bounds the
nesting work; jfuel of the value always suffices. -/
def parseValue : Nat → List Char → Option (Json × List Char)
  | 0, _ => none
  | fuel + 1, cs =>
    match skipWs cs with
    | [] => none
    | c :: r =>
      if c = 'n' then
        match r with
        | 'u' :: 'l' :: 'l' :: r2 => some (.null, r2)
        | _ => none
      else if c = 't' then
        match r with
        | 'r' :: 'u' :: 'e' :: r2 => some (.bool true, r2)
        | _ => none
      else if c = 'f' then
        match r with
        | 'a' :: 'l' :: 's' :: 'e' :: r2 => some (.bool false, r2)
        | _ => none
      else if c = '"' then
        match parseStringBody (r.length + 1) r [] with
        | some (s, r2) => some (.str s, r2)
        | none => none
      else if c = '[' then
        match skipWs r with
        | [] => none
        | c2 :: r2 =>
          if c2 = ']' then some (.arr [], r2) else parseElements fuel r []
      else if c = '\x7b' then
        match skipWs r with
        | [] => none
        | c2 :: r2 =>
          if c2 = '\x7d' then some (.obj [], r2) else parseMembers fuel r []
      else if c = '-' || isDigitChar c then parseNumber (c :: r)
      else none
/-- Parses the elements of a non-empty array after its opening bracket. -/
def parseElements : Nat → List Char → List Json → Option (Json × List Char)
  | 0, _, _ => none
  | fuel + 1, cs, acc =>
    match parseValue fuel cs with
    | none => none
    | some (v, r) =>
      match skipWs r with
      | [] => none
      | c :: r2 =>
        if c = ',' then parseElements fuel r2 (v :: acc)
        else if c = ']' then some (.arr (v :: acc).reverse, r2)
        else none
/-- Parses the members of a non-empty object after its opening brace. -/
def parseMembers : Nat → List Char → List (String × Json) →
    Option (Json × List Char)
  | 0, _, _ => none
  | fuel + 1, cs, acc =>
    match skipWs cs with
    | [] => none
    | c0 :: r =>
      if c0 = '"' then
        match parseStringBody (r.length + 1) r [] with
        | none => none
        | some (k, r2) =>
          match skipWs r2 with
          | [] => none
          | c1 :: r3 =>
            if c1 = ':' then
              match parseValue fuel r3 with
              | none => none
              | some (v, r4) =>
                match skipWs r4 with
                | [] => none
                | c2 :: r5 =>
                  if c2 = ',' then parseMembers fuel r5 ((k, v) :: acc)
                  else if c2 = '\x7d' then
                    some (.obj ((k, v) :: acc).reverse, r5)
                  else none
            else none
      else none
end

/-- Model of Python json.loads: parse one JSON value and require that only
whitespace follows. Twice the input length plus two is always enough fuel,
since at least one character is consumed per two fuel levels. -/
def json_loads (s : String) : Option Json :=
  match parseValue (2 * s.data.length + 2) s.data with
  | some (v, rest) => if skipWs rest = [] then some v else none
  | none => none

mutual
/-- Parser fuel sufficient for a value: one unit per structural level. -/
def jfuel : Json → Nat
  | .null => 1
  | .bool _ => 1
  | .num _ => 1
  | .str _ => 1
  | .arr vs => 1 + jfuelList vs
  | .obj fs => 1 + jfuelFields fs
/-- Parser fuel sufficient for the elements of an array. -/
def jfuelList : List Json → Nat
  | [] => 1
  | v :: vs => 1 + jfuel v + jfuelList vs
/-- Parser fuel sufficient for the members of an object. -/
def jfuelFields : List (String × Json) → Nat
  | [] => 1
  | (_, v) :: fs => 1 + jfuel v + jfuelFields fs
end

/-- A character that passes through a JSON string literal untouched: not a
quote, not a backslash, not a control character. A string of such
characters survives being spliced into JSON source without escaping. -/
def plainChar (c : Char) : Prop := c ≠ '"' ∧ c ≠ '\\' ∧ 32 ≤ c.toNat

instance (c : Char) : Decidable (plainChar c) :=
  inferInstanceAs (Decidable (c ≠ '"' ∧ c ≠ '\\' ∧ 32 ≤ c.toNat))

mutual
/-- Python repr() of a decoded JSON value, as used in error-message
formatting of nested containers. The repr of strings is modelled without
re-escaping, which is exact for strings free of quotes, backslashes and
control characters (every payload the claims touch). -/
def pyRepr : Json → String
  | .null => "None"
  | .bool true => "True"
  | .bool false => "False"
  | .num n => intStr n
  | .str s => "\x27" ++ s ++ "\x27"
  | .arr vs => "[" ++ pyReprElems vs ++ "]"
  | .obj fs => "\x7b" ++ pyReprFields fs ++ "\x7d"
def pyReprElems : List Json → String
  | [] => ""
  | [v] => pyRepr v
  | v :: v2 :: vs => pyRepr v ++ ", " ++ pyReprElems (v2 :: vs)
def pyReprFields : List (String × Json) → String
  | [] => ""
  | [(k, v)] => "\x27" ++ k ++ "\x27: " ++ pyRepr v
  | (k, v) :: f :: fs =>
      "\x27" ++ k ++ "\x27: " ++ pyRepr v ++ ", " ++ pyReprFields (f :: fs)
end

/-- Python str() of a decoded JSON value: scalars print bare, containers
print as their repr. -/
def pyStr : Json → String
  | .null => "None"
  | .bool true => "True"
  | .bool false => "False"
  | .num n => intStr n
  | .str s => s
  | .arr vs => pyRepr (.arr vs)
  | .obj fs => pyRepr (.obj fs)

namespace Rpc

/-- A JSON-RPC message id: source check_id admits exactly ints and
strings. -/
inductive IdVal where
  | int (n : Int)
  | str (s : String)
deriving DecidableEq

/-- The JSON value carried by an id. -/
def idJson : IdVal → Json
  | .int n => .num n
  | .str s => .str s

/-- An RPCError subclass of rpc.py: its class-level code attribute (an int
for the distinct classes, an inclusive int pair for the reserved
server-error band) and its title. -/
structure ErrClass where
  code : Int ⊕ (Int × Int)
  title : String
deriving DecidableEq

def RPCParseErrorCls : ErrClass := ⟨.inl (-32700), "Parse error"⟩

def RPCInvalidRequestCls : ErrClass := ⟨.inl (-32600), "Invalid Request"⟩

def RPCMethodNotFoundCls : ErrClass := ⟨.inl (-32601), "Method not found"⟩

def RPCInvalidParamsCls : ErrClass := ⟨.inl (-32602), "Invalid params"⟩

def RPCInternalErrorCls : ErrClass := ⟨.inl (-32603), "Internal error"⟩

def RPCServerErrorCls : ErrClass := ⟨.inr (-32099, -32000), "Server error"⟩

/-- The registry filled by the six @register_error declarations: distinct
codes. -/
def error_map_distinct : List (Int × ErrClass) :=
  [(-32700, RPCParseErrorCls), (-32600, RPCInvalidRequestCls),
   (-32601, RPCMethodNotFoundCls), (-32602, RPCInvalidParamsCls),
   (-32603, RPCInternalErrorCls)]

/-- The registry of code ranges. -/
def error_map_range : List ((Int × Int) × ErrClass) :=
  [((-32099, -32000), RPCServerErrorCls)]

/-- get_error of rpc.py: distinct codes first, then the inclusive
ranges, none when unregistered. -/
def get_error (code : Int) : Option ErrClass :=
  match kvGet error_map_distinct code with
  | some cls => some cls
  | none =>
    match error_map_range.find?
        (fun p => decide (p.1.1 ≤ code) && decide (code ≤ p.1.2)) with
    | some p => some p.2
    | none => none

/-- Python str() of the class-level code attribute as interpolated into the
error message: plain decimal for ints, tuple syntax for ranges. -/
def clsCodeStr : Int ⊕ (Int × Int) → String
  | .inl c => intStr c
  | .inr (a, b) => "(" ++ intStr a ++ ", " ++ intStr b ++ ")"

/-- An RPCError instance: its class, the message built by
RPCError.__init__, and its data attribute (Json.null models Python
None). -/
structure RPCError where
  cls : ErrClass
  message : String
  data : Json
deriving DecidableEq

/-- RPCError.__init__: message is "title (code)" with ", data: d" appended
when data is not None. -/
def mkRPCError (cls : ErrClass) (data : Json) : RPCError :=
  let message := cls.title ++ " (" ++ clsCodeStr cls.code ++ ")" ++
    (if data = Json.null then "" else ", data: " ++ pyStr data)
  ⟨cls, message, data⟩

/-- generate_request of rpc.py: hand-formatted envelope; the method string
is interpolated RAW (format, not json.dumps), the id is formatted directly
for ints and json.dumps-encoded for strings, params (when not None) is
json.dumps-encoded. check_method and check_id always pass on these argument
types, so the function is total here. -/
def generate_request (method : String) (id : Option IdVal) (params : Json) :
    String :=
  let req := "\x7b\"jsonrpc\":\"2.0\",\"method\":\"" ++ method ++ "\""
  let req := match id with
    | none => req
    | some (.int n) => req ++ ",\"id\":" ++ intStr n
    | some (.str s) => req ++ ",\"id\":" ++ json_dumps (.str s)
  let req := if params = Json.null then req
    else req ++ ",\"params\":" ++ json_dumps params
  req ++ "\x7d"

/-- String or direct-decimal encoding of an id as interpolated by
generate_response and generate_error. -/
def idEnc : IdVal → String
  | .int n => intStr n
  | .str s => json_dumps (.str s)

/-- generate_response of rpc.py. -/
def generate_response (id : IdVal) (result : Json) : String :=
  "\x7b\"jsonrpc\":\"2.0\",\"id\":" ++ idEnc id ++ ",\"result\":" ++
    json_dumps result ++ "\x7d"

/-- generate_error of rpc.py: none models the RPCInvalidRequest raised by
check_code when the code is unregistered; otherwise the hand-formatted
error line with the class title as message and optional data. -/
def generate_error (id : IdVal) (code : Int) (data : Json) : Option String :=
  match get_error code with
  | none => none
  | some cls =>
    let message := cls.title
    let err_data := "\x7b\"code\":" ++ intStr code ++ ",\"message\":\"" ++
      message ++ "\"" ++
      (if data = Json.null then "\x7d"
       else ",\"data\":" ++ json_dumps data ++ "\x7d")
    some ("\x7b\"jsonrpc\":\"2.0\",\"id\":" ++ idEnc id ++ ",\"error\":" ++
      err_data ++ "\x7d")

/-- The result slot of the EYWA._results table: EMPTY_RESULT sentinel, a
plain value, or a stored exception. A decoded JSON value is never equal to
the sentinel object, which the constructors reflect. -/
inductive Slot where
  | empty
  | value (v : Json)
  | exc (e : RPCError)
deriving DecidableEq

/-- The mutable state of one EYWA instance: the id counter _i (starts at
-1), the set of ids with entries in _callbacks, and the _results table. -/
structure EywaState where
  i : Int
  callbacks : List Int
  results : List (Int × Slot)
deriving DecidableEq

/-- EYWA.__init__ state. -/
def initEywa : EywaState := ⟨-1, [], []⟩

/-- EYWA.send: a notification when there is no callback and block is not
positive (no id, no bookkeeping); otherwise allocates id = _i + 1, registers
the callback and/or the EMPTY result slot, and writes the generated request.
Returns the new state, the allocated id, and the written line. -/
def send (st : EywaState) (method : String) (params : Json)
    (hasCallback : Bool) (blockPos : Bool) :
    EywaState × Option Int × String :=
  let is_notification := !hasCallback && !blockPos
  let idOpt : Option Int := if is_notification then none else some (st.i + 1)
  let st := if is_notification then st else { st with i := st.i + 1 }
  let st := match idOpt, hasCallback with
    | some id, true =>
      { st with callbacks :=
          if st.callbacks.contains id then st.callbacks
          else st.callbacks ++ [id] }
    | _, _ => st
  let st := match idOpt, blockPos with
    | some id, true => { st with results := kvSet st.results id Slot.empty }
    | _, _ => st
  let idv : Option IdVal := idOpt.map IdVal.int
  (st, idOpt, generate_request method idv params)

/-- One check of EYWA.send's blocking poll loop: none while the slot still
holds EMPTY_RESULT (the loop sleeps and retries); once filled, the entry is
deleted and the value returned, a stored exception being raised (inl). -/
def pollResult (st : EywaState) (id : Int) :
    Option (EywaState × (RPCError ⊕ Json)) :=
  match kvGet st.results id with
  | some Slot.empty => none
  | some (Slot.value v) =>
    some ({ st with results := kvDel st.results id }, Sum.inr v)
  | some (Slot.exc e) =>
    some ({ st with results := kvDel st.results id }, Sum.inl e)
  | none => none

/-- The classification performed by EYWA._handle on a decoded object:
an object with a method key is a request; otherwise without an error key it
goes to the response handler; otherwise to the error handler. There is no
invalid-drop branch. -/
inductive RpcRoute where
  | request
  | response
  | error
deriving DecidableEq

/-- EYWA._handle dispatch (after json.loads). -/
def handle_dispatch (obj : Json) : RpcRoute :=
  if jhas obj "method" then .request
  else if !(jhas obj "error") then .response
  else .error

/-- EYWA._handle_response: res["id"] is read unconditionally (none models
the uncaught KeyError); res["result"] is read only when the id is pending
in _results or _callbacks. A pending result slot is overwritten with the
value; a registered callback is removed and invoked with (None, result) -
the second component reports the value passed to it. -/
def handle_response (st : EywaState) (res : Json) :
    Option (EywaState × Option Json) :=
  match jget res "id" with
  | none => none
  | some (.num id) =>
    if kvHas st.results id || st.callbacks.contains id then
      match jget res "result" with
      | none => none
      | some v =>
        let st1 := if kvHas st.results id then
            { st with results := kvSet st.results id (Slot.value v) }
          else st
        if st1.callbacks.contains id then
          some ({ st1 with callbacks := st1.callbacks.erase id }, some v)
        else some (st1, none)
    else some (st, none)
  | some _ => some (st, none)

/-- EYWA._handle_error: builds get_error(err["code"])(err.get("data",
err["message"])) - none models the uncaught KeyError/TypeError paths
(missing error, code or message key, non-int code, unregistered code) that
crash the reader thread. A pending result slot receives the exception; a
registered callback is removed and invoked with (error, None) - the second
component reports that error. -/
def handle_error (st : EywaState) (res : Json) :
    Option (EywaState × Option RPCError) :=
  match jget res "error" with
  | none => none
  | some err =>
    match jget err "code" with
    | some (.num code) =>
      match jget err "message" with
      | none => none
      | some msgv =>
        match get_error code with
        | none => none
        | some cls =>
          let data := (jget err "data").getD msgv
          let error := mkRPCError cls data
          match jget res "id" with
          | none => none
          | some (.num id) =>
            let st1 := if kvHas st.results id then
                { st with results := kvSet st.results id (Slot.exc error) }
              else st
            if st1.callbacks.contains id then
              some ({ st1 with callbacks := st1.callbacks.erase id },
                some error)
            else some (st1, none)
          | some _ => some (st, none)
    | some _ => none
    | none => none

/-- Failure of a Python handler: an RPCError instance or any other
exception (carrying its str()). -/
inductive PyErr where
  | rpc (e : RPCError)
  | other (s : String)

/-- A registered handler: a function of the request params. -/
def Handler := Json → Except PyErr Json

/-- EYWA._route: returns the registered handler or raises
RPCMethodNotFound with the method value as data. Non-string method values
are never dict keys, hence never found. -/
def route (handlers : List (String × Handler)) (method : Json) :
    Except RPCError Handler :=
  match method with
  | .str m =>
    match kvGet handlers m with
    | some h => .ok h
    | none => .error (mkRPCError RPCMethodNotFoundCls (.str m))
  | other => .error (mkRPCError RPCMethodNotFoundCls other)

/-- Reply writing of EYWA._handle_request: a line is written only when the
request has an id, and only when that id passes check_id (int or string) -
otherwise the RPCInvalidRequest raised inside the except handler propagates
and nothing is written. -/
def writeBack (req : Json) (mk : IdVal → Option String) : List String :=
  match jget req "id" with
  | none => []
  | some (.num n) =>
    match mk (.int n) with
    | some s => [s]
    | none => []
  | some (.str s) =>
    match mk (.str s) with
    | some s2 => [s2]
    | none => []
  | some _ => []

/-- The error line written for a caught RPCError: generate_error(req["id"],
e.code, e.data). A class whose code attribute is a range tuple fails
check_code's isinstance test, so nothing is written. -/
def errLine (e : RPCError) (id : IdVal) : Option String :=
  match e.cls.code with
  | .inl c => generate_error id c e.data
  | .inr _ => none

/-- EYWA._handle_request: routes req["method"], invokes the handler on
req["params"], and writes back a response or error line when an id is
present; the lines written are returned. A missing params key raises
KeyError, caught as an internal error (str(KeyError("params")) in Python
prints the quoted key). -/
def handle_request (handlers : List (String × Handler)) (req : Json) :
    List String :=
  match jget req "method" with
  | none => []
  | some mv =>
    match route handlers mv with
    | .error e => writeBack req (errLine e)
    | .ok h =>
      match jget req "params" with
      | none =>
        writeBack req (fun id => generate_error id (-32603) (.str "\x27params\x27"))
      | some params =>
        match h params with
        | .ok result => writeBack req (fun id => some (generate_response id result))
        | .error (.rpc e) => writeBack req (errLine e)
        | .error (.other s) =>
          writeBack req (fun id => generate_error id (-32603) (.str s))

/-- The observable state of the Line reader thread: the stop event, whether
stdin is closed, the lines available on stdin, and the lines that have been
passed to EYWA._handle. -/
structure LineState where
  stopSet : Bool
  stdinClosed : Bool
  input : List String
  handled : List String
deriving DecidableEq

/-- One iteration of Line.run's while loop, exactly as written: line is
set to None, the loop breaks when stdin is closed, and since line is None
the body only waits on the stop event - no read of stdin occurs anywhere
in the loop. none models loop exit. -/
def line_run_iter (s : LineState) : Option LineState :=
  if s.stopSet then none
  else
    let line : Option String := none
    if s.stdinClosed then none
    else
      match line with
      | some l => some { s with handled := s.handled ++ [l] }
      | none => some s

/-- Up to n iterations of Line.run's loop. -/
def line_run : Nat → LineState → LineState
  | 0, s => s
  | n + 1, s =>
    match line_run_iter s with
    | none => s
    | some s2 => line_run n s2

/-- One observable transition of the EYWA instance state: a send call, or
the reader thread handling a response or an error. -/
inductive Step : EywaState → EywaState → Prop where
  | send (method : String) (params : Json) (hasCallback blockPos : Bool)
      (st : EywaState) : Step st (send st method params hasCallback blockPos).1
  | response (res : Json) (st st2 : EywaState) (inv : Option Json) :
      handle_response st res = some (st2, inv) → Step st st2
  | error (res : Json) (st st2 : EywaState) (inv : Option RPCError) :
      handle_error st res = some (st2, inv) → Step st st2

/-- States reachable from a fresh EYWA instance. -/
inductive Reachable : EywaState → Prop where
  | init : Reachable initEywa
  | step {s t : EywaState} : Reachable s → Step s t → Reachable t

end Rpc

namespace Aio

/-- The classification outcomes of handle_data in eywa/eywa.py. Both
response shapes dispatch to the same handle_response function; the tag
records which branch fired. -/
inductive Classified where
  | request
  | responseSuccess
  | responseError
  | invalid
deriving DecidableEq

/-- handle_data of eywa/eywa.py: data.get of method, id, result and error,
then truthiness tests in order - a truthy method is a request; otherwise a
truthy result with a truthy id is a response (success shape); otherwise a
truthy error with a truthy id is a response (error shape); anything else is
printed as invalid JSON-RPC and dropped. -/
def handle_data (data : Json) : Classified :=
  let method := jget data "method"
  let id_ := jget data "id"
  let result := jget data "result"
  let error := jget data "error"
  if truthyOpt method then .request
  else if truthyOpt result && truthyOpt id_ then .responseSuccess
  else if truthyOpt error && truthyOpt id_ then .responseError
  else .invalid

/-- handle_request of eywa/eywa.py: looks the method up among the
registered handler names and invokes the handler on the whole data object;
an unregistered method is only printed about. Returns whether a handler was
invoked and the lines written back - which are none in every case: this
dispatcher never replies. -/
def handle_request (handlers : List String) (data : Json) :
    Bool × List String :=
  match jget data "method" with
  | some (.str m) => if handlers.contains m then (true, []) else (false, [])
  | _ => (false, [])

/-- The rpc_callbacks table of eywa/eywa.py: each pending id maps to its
future, none while unresolved. -/
abbrev Callbacks := List (String × Option Json)

/-- handle_response of eywa/eywa.py: looks the message id up in
rpc_callbacks and, when a future is registered, resolves it with the WHOLE
decoded data object (callback.set_result(data)); otherwise only prints. -/
def handle_response (cbs : Callbacks) (data : Json) : Callbacks :=
  match jget data "id" with
  | some (.str i) =>
    if kvHas cbs i then kvSet cbs i (some data) else cbs
  | _ => cbs

/-- The part of send_request up to the write: data["jsonrpc"] and
data["id"] are assigned IN PLACE on the caller's dict, a fresh future is
registered under the generated token, and json.dumps(data) plus a newline
is written. Returns the updated callback table, the caller's mutated dict,
and the written line. -/
def send_request_start (cbs : Callbacks) (data : List (String × Json))
    (tok : String) : Callbacks × List (String × Json) × String :=
  let data2 := kvSet (kvSet data "jsonrpc" (.str "2.0")) "id" (.str tok)
  (kvSet cbs tok none, data2, json_dumps (.obj data2) ++ "\x0a")

/-- The rest of send_request after `await future`: once the future is
resolved, the callback entry is deleted and the resolution value (the whole
envelope handle_response stored) is returned; none while unresolved. -/
def send_request_finish (cbs : Callbacks) (tok : String) :
    Option (Callbacks × Json) :=
  match kvGet cbs tok with
  | some (some v) => some (kvDel cbs tok, v)
  | _ => none

/-- send_notification of eywa/eywa.py: assigns data["jsonrpc"] in place and
writes json.dumps(data) plus a newline; no id, no bookkeeping. -/
def send_notification (data : List (String × Json)) :
    List (String × Json) × String :=
  let data2 := kvSet data "jsonrpc" (.str "2.0")
  (data2, json_dumps (.obj data2) ++ "\x0a")

/-- One observable event of the read_stdin loop: a readline timeout or a
completed line. -/
inductive ReadEvent where
  | timeout
  | line (s : String)

/-- One observable transition of the rpc_callbacks table: registration at
the start of send_request, resolution by handle_response, or deletion when
an awaited send_request resumes. -/
inductive AStep : Callbacks → Callbacks → Prop where
  | start (data : List (String × Json)) (tok : String) (cbs : Callbacks) :
      AStep cbs (send_request_start cbs data tok).1
  | resp (data : Json) (cbs : Callbacks) :
      AStep cbs (handle_response cbs data)
  | finish (tok : String) (cbs cbs2 : Callbacks) (v : Json) :
      send_request_finish cbs tok = some (cbs2, v) → AStep cbs cbs2

/-- Callback tables reachable from the initial empty rpc_callbacks. -/
inductive AReachable : Callbacks → Prop where
  | init : AReachable []
  | step {c c2 : Callbacks} : AReachable c → AStep c c2 → AReachable c2

/-- The read_stdin loop of eywa/eywa.py over a sequence of read events:
the try block catches ONLY asyncio.TimeoutError, so a line that fails
json.loads raises JSONDecodeError out of the loop and the coroutine dies.
Returns the decoded objects handed to handle_data in order, and whether
the loop was terminated by a decode error. -/
def read_stdin_loop : List ReadEvent → List Json × Bool
  | [] => ([], false)
  | .timeout :: rest => read_stdin_loop rest
  | .line s :: rest =>
    match json_loads s with
    | some j =>
      let p := read_stdin_loop rest
      (j :: p.1, p.2)
    | none => ([], true)

end Aio

namespace Files

/-- FileUploadError of eywa_files.py: message, type (defaulting to
upload-error) and optional HTTP status code. -/
structure FileUploadError where
  message : String
  type : String
  code : Option Int
deriving DecidableEq

/-- FileUploadError(message) with the default type and no code. -/
def mkFileUploadError (msg : String) : FileUploadError :=
  ⟨msg, "upload-error", none⟩

/-- The result dict of _http_put_content / _http_put_stream: a status
string with code and message. -/
structure PutResult where
  status : String
  code : Int
  message : String
deriving DecidableEq

/-- The three steps of the upload protocol. -/
inductive UpStep where
  | requestURL
  | putS3
  | confirm
deriving DecidableEq

/-- Python o.get(k, d) on a decoded value: none models the AttributeError
raised when o is not a dict. -/
def pyGet (o : Json) (k : String) (d : Json) : Option Json :=
  match o with
  | .obj fs => some ((kvGet fs k).getD d)
  | _ => none

/-- Steps 1-3 shared verbatim by upload, upload_stream and upload_content
of eywa_files.py, as a function of the three collaborator results: the
requestUploadURL GraphQL response, the HTTP PUT result, and the
confirmFileUpload GraphQL response. The wrap prefix is the per-function
message prefix of the final `except Exception` handler (whose str(e)
suffix for the not-a-dict crash paths is not modelled further - those
paths carry no claim). Returns the outcome and the list of steps executed,
in order. The per-function pre-checks (file existence, required name/size)
precede step 1 and raise before any step runs. -/
def upload_steps (wrap : String) (reqResp : Json) (put : PutResult)
    (confirmResp : Json) : Except FileUploadError Unit × List UpStep :=
  match pyGet reqResp "error" Json.null with
  | none => (.error (mkFileUploadError wrap), [.requestURL])
  | some errv =>
    if truthy errv then
      (.error (mkFileUploadError ("Failed to get upload URL: " ++ pyStr errv)),
       [.requestURL])
    else
      match pyGet reqResp "data" (.obj []) with
      | none => (.error (mkFileUploadError wrap), [.requestURL])
      | some datav =>
        match pyGet datav "requestUploadURL" Json.null with
        | none => (.error (mkFileUploadError wrap), [.requestURL])
        | some url =>
          if !truthy url then
            (.error (mkFileUploadError "No upload URL in response"),
             [.requestURL])
          else if put.status = "error" then
            (.error ⟨"S3 upload failed (" ++ intStr put.code ++ "): " ++
                put.message, "upload-error", some put.code⟩,
             [.requestURL, .putS3])
          else
            match pyGet confirmResp "error" Json.null with
            | none =>
              (.error (mkFileUploadError wrap), [.requestURL, .putS3, .confirm])
            | some cerr =>
              if truthy cerr then
                (.error (mkFileUploadError
                    ("Upload confirmation failed: " ++ pyStr cerr)),
                 [.requestURL, .putS3, .confirm])
              else
                match pyGet confirmResp "data" (.obj []) with
                | none =>
                  (.error (mkFileUploadError wrap),
                   [.requestURL, .putS3, .confirm])
                | some cdata =>
                  match pyGet cdata "confirmFileUpload" Json.null with
                  | none =>
                    (.error (mkFileUploadError wrap),
                     [.requestURL, .putS3, .confirm])
                  | some confirmed =>
                    if !truthy confirmed then
                      (.error (mkFileUploadError
                          "Upload confirmation returned false"),
                       [.requestURL, .putS3, .confirm])
                    else (.ok (), [.requestURL, .putS3, .confirm])

/-- upload of eywa_files.py, from step 1 on (its except-wrapper prefix). -/
def upload : Json → PutResult → Json → Except FileUploadError Unit × List UpStep :=
  upload_steps "Upload failed: "

/-- upload_stream of eywa_files.py, from step 1 on. -/
def upload_stream : Json → PutResult → Json → Except FileUploadError Unit × List UpStep :=
  upload_steps "Stream upload failed: "

/-- upload_content of eywa_files.py, from step 1 on. -/
def upload_content : Json → PutResult → Json → Except FileUploadError Unit × List UpStep :=
  upload_steps "Content upload failed: "

end Files

def RpcInv (st : Rpc.EywaState) : Prop :=
  (st.results.map Prod.fst).Nodup ∧ st.callbacks.Nodup ∧
  (∀ k ∈ st.results.map Prod.fst, k ≤ st.i) ∧
  (∀ k ∈ st.callbacks, k ≤ st.i)

/-! Digit and number lemmas. -/

theorem digitCharOf_toNat (m : Nat) (h : m < 10) :
    (digitCharOf m).toNat = 48 + m := by
  interval_cases m <;> decide

theorem isDigitChar_digitCharOf (m : Nat) (h : m < 10) :
    isDigitChar (digitCharOf m) = true := by
  interval_cases m <;> decide

theorem digitsAux_zero (fuel : Nat) (acc : List Char) :
    digitsAux fuel 0 acc = acc := by
  cases fuel <;> simp [digitsAux]

theorem parseNatAux_stop (a : Nat) (rest : List Char)
    (h : ∀ c, rest.head? = some c → isDigitChar c = false) :
    parseNatAux a rest = (a, rest) := by
  cases rest with
  | nil => rfl
  | cons c cs => simp [parseNatAux, h c rfl]

theorem parseNatAux_digitsAux :
    ∀ n fuel a tail, n ≤ fuel →
      ∃ b, parseNatAux a (digitsAux fuel n tail) = parseNatAux b tail ∧
        (a = 0 → b = n) := by
  intro n
  induction n using Nat.strong_induction_on with
  | _ n ih =>
    intro fuel a tail hle
    rcases Nat.eq_zero_or_pos n with h0 | hpos
    · subst h0
      exact ⟨a, by rw [digitsAux_zero], fun h => by omega⟩
    · obtain ⟨f, rfl⟩ : ∃ f, fuel = f + 1 := ⟨fuel - 1, by omega⟩
      have hstep : digitsAux (f + 1) n tail =
          digitsAux f (n / 10) (digitCharOf (n % 10) :: tail) := by
        have hn : ¬(n = 0) := by omega
        simp [digitsAux, hn]
      have hdiv : n / 10 < n := Nat.div_lt_self hpos (by norm_num)
      obtain ⟨b1, hb1, hb1z⟩ :=
        ih (n / 10) hdiv f a (digitCharOf (n % 10) :: tail) (by omega)
      refine ⟨b1 * 10 + n % 10, ?_, ?_⟩
      · rw [hstep, hb1]
        have hd : isDigitChar (digitCharOf (n % 10)) = true :=
          isDigitChar_digitCharOf _ (Nat.mod_lt _ (by norm_num))
        have ht : (digitCharOf (n % 10)).toNat = 48 + n % 10 :=
          digitCharOf_toNat _ (Nat.mod_lt _ (by norm_num))
        simp [parseNatAux, hd, ht]
      · intro ha
        rw [hb1z ha]
        omega

theorem digitsAux_append :
    ∀ fuel n acc rest,
      digitsAux fuel n acc ++ rest = digitsAux fuel n (acc ++ rest) := by
  intro fuel
  induction fuel with
  | zero => intros; rfl
  | succ f ih =>
    intro n acc rest
    by_cases h : n = 0
    · subst h; simp [digitsAux]
    · simp only [digitsAux, h, if_neg, ite_false]
      exact ih (n / 10) (digitCharOf (n % 10) :: acc) rest

theorem parseNatAux_natChars (n : Nat) (rest : List Char)
    (h : ∀ c, rest.head? = some c → isDigitChar c = false) :
    parseNatAux 0 (natChars n ++ rest) = (n, rest) := by
  rcases Nat.eq_zero_or_pos n with h0 | hpos
  · subst h0
    show parseNatAux 0 ('0' :: rest) = _
    have : parseNatAux 0 ('0' :: rest) = parseNatAux 0 rest := by
      simp [parseNatAux, isDigitChar]
    rw [this, parseNatAux_stop 0 rest h]
  · have heq : natChars n ++ rest = digitsAux n n rest := by
      unfold natChars
      rw [if_neg (by omega), digitsAux_append]
      rfl
    rw [heq]
    obtain ⟨b, hb, hbz⟩ := parseNatAux_digitsAux n n 0 rest le_rfl
    rw [hb, hbz rfl]
    exact parseNatAux_stop n rest h

theorem digitsAux_head :
    ∀ n fuel acc, 0 < n → n ≤ fuel →
      ∃ c cs, digitsAux fuel n acc = c :: cs ∧ isDigitChar c = true := by
  intro n
  induction n using Nat.strong_induction_on with
  | _ n ih =>
    intro fuel acc hpos hle
    obtain ⟨f, rfl⟩ : ∃ f, fuel = f + 1 := ⟨fuel - 1, by omega⟩
    have hn : ¬(n = 0) := by omega
    have hstep : digitsAux (f + 1) n acc =
        digitsAux f (n / 10) (digitCharOf (n % 10) :: acc) := by
      simp [digitsAux, hn]
    rcases Nat.eq_zero_or_pos (n / 10) with hz | hp
    · rw [hstep, hz, digitsAux_zero]
      exact ⟨_, _, rfl, isDigitChar_digitCharOf _ (Nat.mod_lt _ (by norm_num))⟩
    · rw [hstep]
      exact ih (n / 10) (Nat.div_lt_self hpos (by norm_num)) f _ hp (by omega)

theorem natChars_shape (n : Nat) :
    ∃ c cs, natChars n = c :: cs ∧ isDigitChar c = true := by
  rcases Nat.eq_zero_or_pos n with h0 | hpos
  · subst h0; exact ⟨'0', [], rfl, by decide⟩
  · unfold natChars
    rw [if_neg (by omega)]
    exact digitsAux_head n n [] hpos le_rfl

theorem parseNumber_intChars (k : Int) (rest : List Char)
    (h : ∀ c, rest.head? = some c → isDigitChar c = false) :
    parseNumber (intChars k ++ rest) = some (.num k, rest) := by
  cases k with
  | ofNat n =>
    obtain ⟨c, cs, hc, hd⟩ := natChars_shape n
    show parseNumber (natChars n ++ rest) = _
    rw [hc]
    have hcm : ¬(c = '-') := by
      intro hcm
      subst hcm
      simp [isDigitChar] at hd
    show parseNumber (c :: (cs ++ rest)) = _
    simp only [parseNumber]
    rw [if_neg hcm, if_pos hd]
    have : c :: (cs ++ rest) = natChars n ++ rest := by rw [hc]; rfl
    rw [this, parseNatAux_natChars n rest h]
    rfl
  | negSucc m =>
    show parseNumber ('-' :: (natChars (m + 1) ++ rest)) = _
    simp only [parseNumber, if_true]
    obtain ⟨c, cs, hc, hd⟩ := natChars_shape (m + 1)
    rw [hc]
    simp only [List.cons_append, hd, if_true]
    rw [show c :: (cs ++ rest) = natChars (m + 1) ++ rest from by rw [hc]; rfl,
      parseNatAux_natChars (m + 1) rest h]
    simp [Int.negSucc_eq]

/-! String escape and parse lemmas. -/

theorem char_not_surrogate (c : Char) : c.toNat < 0xD800 ∨ 0xDFFF < c.toNat := by
  have h := c.valid
  unfold UInt32.isValidChar Nat.isValidChar at h
  rcases h with h | ⟨h1, _⟩
  · exact Or.inl h
  · exact Or.inr h1

theorem char_lt_110000 (c : Char) : c.toNat < 0x110000 := by
  have h := c.valid
  unfold UInt32.isValidChar Nat.isValidChar at h
  rcases h with h | ⟨_, h2⟩
  · have he : c.toNat = c.val.toNat := rfl
    omega
  · exact h2

theorem hexVal_hexDigitChar (d : Nat) (h : d < 16) :
    hexVal (hexDigitChar d) = some d := by
  interval_cases d <;> decide

theorem parseHex4_digits (n : Nat) (h : n ≤ 0xFFFF) (rest : List Char) :
    parseHex4 (hexDigitChar (n / 4096 % 16) :: hexDigitChar (n / 256 % 16) ::
      hexDigitChar (n / 16 % 16) :: hexDigitChar (n % 16) :: rest) =
      some (n, rest) := by
  rw [parseHex4]
  rw [hexVal_hexDigitChar _ (by omega), hexVal_hexDigitChar _ (by omega),
      hexVal_hexDigitChar _ (by omega), hexVal_hexDigitChar _ (by omega)]
  simp only
  congr 2
  omega

theorem parseHex4_uEscape (n : Nat) (h : n ≤ 0xFFFF) (rest : List Char) :
    parseHex4 ((uEscape n).drop 2 ++ rest) = some (n, rest) := by
  show parseHex4 (hexDigitChar (n / 4096 % 16) :: hexDigitChar (n / 256 % 16) ::
      hexDigitChar (n / 16 % 16) :: hexDigitChar (n % 16) :: rest) = _
  exact parseHex4_digits n h rest


theorem parseUnicode_single (n : Nat) (hn : n ≤ 0xFFFF)
    (hs : n < 0xD800 ∨ 0xDFFF < n) (rest : List Char) :
    parseUnicode (hexDigitChar (n / 4096 % 16) :: hexDigitChar (n / 256 % 16) ::
      hexDigitChar (n / 16 % 16) :: hexDigitChar (n % 16) :: rest) =
      some (Char.ofNat n, rest) := by
  unfold parseUnicode
  rw [parseHex4_digits n hn]
  dsimp only
  rw [if_pos (by simp only [Bool.or_eq_true, decide_eq_true_eq]; exact hs)]

theorem parseUnicode_pair (hi lo : Nat) (hhi1 : 0xD800 ≤ hi)
    (hhi2 : hi ≤ 0xDBFF) (hlo1 : 0xDC00 ≤ lo) (hlo2 : lo ≤ 0xDFFF)
    (rest : List Char) :
    parseUnicode (hexDigitChar (hi / 4096 % 16) :: hexDigitChar (hi / 256 % 16) ::
      hexDigitChar (hi / 16 % 16) :: hexDigitChar (hi % 16) ::
      ('\\' :: 'u' :: hexDigitChar (lo / 4096 % 16) :: hexDigitChar (lo / 256 % 16) ::
       hexDigitChar (lo / 16 % 16) :: hexDigitChar (lo % 16) :: rest)) =
      some (Char.ofNat (0x10000 + (hi - 0xD800) * 1024 + (lo - 0xDC00)), rest) := by
  unfold parseUnicode
  rw [parseHex4_digits hi (by omega)]
  dsimp only
  rw [if_neg (by simp only [Bool.or_eq_true, decide_eq_true_eq]; omega)]
  rw [if_pos (by omega)]
  rw [if_pos (by decide)]
  rw [parseHex4_digits lo (by omega)]
  dsimp only
  rw [if_pos (by simp only [Bool.and_eq_true, decide_eq_true_eq]; omega)]

theorem parseStringBody_uEsc (fuel : Nat) (tl rest acc : List Char) (ch : Char)
    (h : parseUnicode tl = some (ch, rest)) :
    parseStringBody (fuel + 1) ('\\' :: 'u' :: tl) acc =
      parseStringBody fuel rest (ch :: acc) := by
  simp only [parseStringBody]
  simp only [Char.reduceEq, reduceIte]
  rw [h]

theorem parseStringBody_escapeChar (c : Char) (fuel : Nat) (rest acc : List Char) :
    parseStringBody (fuel + 1) (escapeChar c ++ rest) acc =
      parseStringBody fuel rest (c :: acc) := by
  by_cases h1 : c = '"'
  · subst h1; simp [escapeChar, parseStringBody]
  by_cases h2 : c = '\\'
  · subst h2; simp [escapeChar, parseStringBody]
  by_cases h3 : c = '\x08'
  · subst h3; simp [escapeChar, parseStringBody]
  by_cases h4 : c = '\x09'
  · subst h4; simp [escapeChar, parseStringBody]
  by_cases h5 : c = '\x0a'
  · subst h5; simp [escapeChar, parseStringBody]
  by_cases h6 : c = '\x0c'
  · subst h6; simp [escapeChar, parseStringBody]
  by_cases h7 : c = '\x0d'
  · subst h7; simp [escapeChar, parseStringBody]
  by_cases h8 : 32 ≤ c.toNat ∧ c.toNat ≤ 126
  · have hesc : escapeChar c = [c] := by
      simp [escapeChar, h1, h2, h3, h4, h5, h6, h7, h8]
    rw [hesc]
    show parseStringBody (fuel + 1) (c :: rest) acc = _
    simp only [parseStringBody]
    rw [if_neg h1, if_neg h2, if_neg (by omega : ¬(c.toNat < 32))]
  by_cases h9 : c.toNat ≤ 0xFFFF
  · have hesc : escapeChar c = uEscape c.toNat := by
      simp [escapeChar, h1, h2, h3, h4, h5, h6, h7, h8, h9]
    rw [hesc]
    have hpu : parseUnicode (hexDigitChar (c.toNat / 4096 % 16) ::
        hexDigitChar (c.toNat / 256 % 16) :: hexDigitChar (c.toNat / 16 % 16) ::
        hexDigitChar (c.toNat % 16) :: rest) = some (c, rest) := by
      rw [parseUnicode_single c.toNat h9 (char_not_surrogate c), Char.ofNat_toNat]
    show parseStringBody (fuel + 1)
      ('\\' :: 'u' :: (hexDigitChar (c.toNat / 4096 % 16) ::
        hexDigitChar (c.toNat / 256 % 16) :: hexDigitChar (c.toNat / 16 % 16) ::
        hexDigitChar (c.toNat % 16) :: rest)) acc = _
    rw [parseStringBody_uEsc fuel _ rest acc c hpu]
  · have hesc : escapeChar c =
        uEscape (0xD800 + (c.toNat - 0x10000) / 1024) ++
        uEscape (0xDC00 + (c.toNat - 0x10000) % 1024) := by
      simp [escapeChar, h1, h2, h3, h4, h5, h6, h7, h8, h9]
    rw [hesc]
    have hlt : c.toNat < 0x110000 := char_lt_110000 c
    have hmod : (c.toNat - 0x10000) % 1024 < 1024 := Nat.mod_lt _ (by norm_num)
    have hdivb : (c.toNat - 0x10000) / 1024 ≤ 0x3FF := by omega
    have hpu : parseUnicode (hexDigitChar ((0xD800 + (c.toNat - 0x10000) / 1024) / 4096 % 16) ::
        hexDigitChar ((0xD800 + (c.toNat - 0x10000) / 1024) / 256 % 16) ::
        hexDigitChar ((0xD800 + (c.toNat - 0x10000) / 1024) / 16 % 16) ::
        hexDigitChar ((0xD800 + (c.toNat - 0x10000) / 1024) % 16) ::
        ('\\' :: 'u' :: hexDigitChar ((0xDC00 + (c.toNat - 0x10000) % 1024) / 4096 % 16) ::
         hexDigitChar ((0xDC00 + (c.toNat - 0x10000) % 1024) / 256 % 16) ::
         hexDigitChar ((0xDC00 + (c.toNat - 0x10000) % 1024) / 16 % 16) ::
         hexDigitChar ((0xDC00 + (c.toNat - 0x10000) % 1024) % 16) :: rest)) =
        some (c, rest) := by
      have hp := parseUnicode_pair (0xD800 + (c.toNat - 0x10000) / 1024)
        (0xDC00 + (c.toNat - 0x10000) % 1024) (by omega) (by omega) (by omega)
        (by omega) rest
      rw [show (0x10000 + ((0xD800 + (c.toNat - 0x10000) / 1024) - 0xD800) * 1024 +
          ((0xDC00 + (c.toNat - 0x10000) % 1024) - 0xDC00)) = c.toNat from by omega,
        Char.ofNat_toNat] at hp
      exact hp
    show parseStringBody (fuel + 1)
      ('\\' :: 'u' :: (hexDigitChar ((0xD800 + (c.toNat - 0x10000) / 1024) / 4096 % 16) ::
        hexDigitChar ((0xD800 + (c.toNat - 0x10000) / 1024) / 256 % 16) ::
        hexDigitChar ((0xD800 + (c.toNat - 0x10000) / 1024) / 16 % 16) ::
        hexDigitChar ((0xD800 + (c.toNat - 0x10000) / 1024) % 16) ::
        ('\\' :: 'u' :: hexDigitChar ((0xDC00 + (c.toNat - 0x10000) % 1024) / 4096 % 16) ::
         hexDigitChar ((0xDC00 + (c.toNat - 0x10000) % 1024) / 256 % 16) ::
         hexDigitChar ((0xDC00 + (c.toNat - 0x10000) % 1024) / 16 % 16) ::
         hexDigitChar ((0xDC00 + (c.toNat - 0x10000) % 1024) % 16) :: rest))) acc = _
    rw [parseStringBody_uEsc fuel _ rest acc c hpu]

theorem parseStringBody_serStr :
    ∀ (cs : List Char) (fuel : Nat) (rest acc : List Char), cs.length < fuel →
      parseStringBody fuel (serStr cs ++ ('"' :: rest)) acc =
        some (String.mk (acc.reverse ++ cs), rest) := by
  intro cs
  induction cs with
  | nil =>
    intro fuel rest acc h
    obtain ⟨f, rfl⟩ : ∃ f, fuel = f + 1 := ⟨fuel - 1, by omega⟩
    simp [serStr, parseStringBody]
  | cons c cs ih =>
    intro fuel rest acc h
    obtain ⟨f, rfl⟩ : ∃ f, fuel = f + 1 := ⟨fuel - 1, by omega⟩
    show parseStringBody (f + 1) ((escapeChar c ++ serStr cs) ++ ('"' :: rest)) acc = _
    rw [List.append_assoc, parseStringBody_escapeChar]
    rw [ih f rest (c :: acc) (by simp at h; omega)]
    simp

theorem parseStringBody_plain :
    ∀ (cs : List Char), (∀ c ∈ cs, plainChar c) →
      ∀ (fuel : Nat) (rest acc : List Char), cs.length < fuel →
        parseStringBody fuel (cs ++ ('"' :: rest)) acc =
          some (String.mk (acc.reverse ++ cs), rest) := by
  intro cs
  induction cs with
  | nil =>
    intro _ fuel rest acc h
    obtain ⟨f, rfl⟩ : ∃ f, fuel = f + 1 := ⟨fuel - 1, by omega⟩
    simp [parseStringBody]
  | cons c cs ih =>
    intro hp fuel rest acc h
    obtain ⟨f, rfl⟩ : ∃ f, fuel = f + 1 := ⟨fuel - 1, by omega⟩
    obtain ⟨hq, hb, hc⟩ := hp c (List.mem_cons_self c cs)
    show parseStringBody (f + 1) (c :: (cs ++ ('"' :: rest))) acc = _
    simp only [parseStringBody]
    rw [if_neg hq, if_neg hb, if_neg (by omega : ¬(c.toNat < 32))]
    rw [ih (fun d hd => hp d (List.mem_cons_of_mem c hd)) f rest (c :: acc)
      (by simp at h; omega)]
    simp

theorem string_mk_data (s : String) : String.mk s.data = s := rfl

theorem escapeChar_length_pos (c : Char) : 1 ≤ (escapeChar c).length := by
  unfold escapeChar
  split_ifs <;> simp [uEscape]

theorem serStr_length (cs : List Char) : cs.length ≤ (serStr cs).length := by
  induction cs with
  | nil => simp [serStr]
  | cons c cs ih =>
    have := escapeChar_length_pos c
    simp only [serStr, List.length_append, List.length_cons]
    omega

theorem intChars_shape (k : Int) :
    ∃ c cs, intChars k = c :: cs ∧ (isDigitChar c = true ∨ c = '-') := by
  cases k with
  | ofNat n =>
    obtain ⟨c, cs, hc, hd⟩ := natChars_shape n
    exact ⟨c, cs, hc, Or.inl hd⟩
  | negSucc m =>
    exact ⟨'-', natChars (m + 1), rfl, Or.inr rfl⟩

theorem digit_head_props (c : Char) (h : isDigitChar c = true ∨ c = '-') :
    c ≠ 'n' ∧ c ≠ 't' ∧ c ≠ 'f' ∧ c ≠ '"' ∧ c ≠ '[' ∧ c ≠ '\x7b' ∧
    c ≠ ' ' ∧ c ≠ '\x0a' ∧ c ≠ '\x09' ∧ c ≠ '\x0d' ∧ c ≠ ']' ∧ c ≠ '\x7d' := by
  rcases h with h | h
  · refine ⟨?_, ?_, ?_, ?_, ?_, ?_, ?_, ?_, ?_, ?_, ?_, ?_⟩ <;>
      (intro he; subst he; exact absurd h (by decide))
  · subst h
    refine ⟨?_, ?_, ?_, ?_, ?_, ?_, ?_, ?_, ?_, ?_, ?_, ?_⟩ <;> decide

theorem skipWs_not_ws (c : Char) (cs : List Char)
    (h : c ≠ ' ' ∧ c ≠ '\x0a' ∧ c ≠ '\x09' ∧ c ≠ '\x0d') :
    skipWs (c :: cs) = c :: cs := by
  simp [skipWs, h.1, h.2.1, h.2.2.1, h.2.2.2]

theorem skipWs_space (cs : List Char) : skipWs (' ' :: cs) = skipWs cs := by
  simp [skipWs]

theorem parseValue_space (fuel : Nat) (cs : List Char) :
    parseValue fuel (' ' :: cs) = parseValue fuel cs := by
  cases fuel with
  | zero => rfl
  | succ f =>
    simp only [parseValue]
    rw [skipWs_space]

theorem parseElements_space (fuel : Nat) (cs : List Char) (acc : List Json) :
    parseElements fuel (' ' :: cs) acc = parseElements fuel cs acc := by
  cases fuel with
  | zero => rfl
  | succ f =>
    simp only [parseElements]
    rw [parseValue_space]

theorem parseMembers_space (fuel : Nat) (cs : List Char)
    (acc : List (String × Json)) :
    parseMembers fuel (' ' :: cs) acc = parseMembers fuel cs acc := by
  cases fuel with
  | zero => rfl
  | succ f =>
    simp only [parseMembers]
    rw [skipWs_space]

theorem serValue_shape (v : Json) :
    ∃ c cs, serValue v = c :: cs ∧ c ≠ ' ' ∧ c ≠ '\x0a' ∧ c ≠ '\x09' ∧
      c ≠ '\x0d' ∧ c ≠ ']' ∧ c ≠ '\x7d' := by
  cases v with
  | null => exact ⟨'n', _, rfl, by decide, by decide, by decide, by decide, by decide, by decide⟩
  | bool b =>
    cases b with
    | true => exact ⟨'t', _, rfl, by decide, by decide, by decide, by decide, by decide, by decide⟩
    | false => exact ⟨'f', _, rfl, by decide, by decide, by decide, by decide, by decide, by decide⟩
  | num n =>
    obtain ⟨c, cs, hc, hd⟩ := intChars_shape n
    obtain ⟨_, _, _, _, _, _, p7, p8, p9, p10, p11, p12⟩ := digit_head_props c hd
    exact ⟨c, cs, by simp [serValue, hc], p7, p8, p9, p10, p11, p12⟩
  | str s => exact ⟨'"', _, rfl, by decide, by decide, by decide, by decide, by decide, by decide⟩
  | arr vs => exact ⟨'[', _, rfl, by decide, by decide, by decide, by decide, by decide, by decide⟩
  | obj fs => exact ⟨'\x7b', _, rfl, by decide, by decide, by decide, by decide, by decide, by decide⟩

theorem jfuel_pos : ∀ v, 1 ≤ jfuel v := by
  intro v
  cases v <;> simp [jfuel]

theorem jfuelList_pos : ∀ vs, 1 ≤ jfuelList vs := by
  intro vs
  cases vs <;> simp [jfuelList] <;> omega

theorem jfuelFields_pos : ∀ fs, 1 ≤ jfuelFields fs := by
  intro fs
  cases fs with
  | nil => simp [jfuelFields]
  | cons f fs => obtain ⟨k, v⟩ := f; simp [jfuelFields]; omega

theorem head_not_digit (x : Char) (hx : isDigitChar x = false) (rest : List Char) :
    ∀ c, (x :: rest).head? = some c → isDigitChar c = false := by
  intro c h
  simp only [List.head?_cons, Option.some.injEq] at h
  subst h
  exact hx

theorem serElems_head (v : Json) (vs : List Json) (c0 : Char) (cs0 : List Char)
    (h : serValue v = c0 :: cs0) :
    ∃ tl, serElems (v :: vs) = c0 :: tl := by
  cases vs with
  | nil => exact ⟨cs0, by simp [serElems, h]⟩
  | cons v2 vs' =>
    exact ⟨cs0 ++ ([',', ' '] ++ serElems (v2 :: vs')), by simp [serElems, h]⟩

theorem serMembers_head (k : String) (v : Json) (fs : List (String × Json)) :
    ∃ tl, serMembers ((k, v) :: fs) = '"' :: tl := by
  cases fs with
  | nil => exact ⟨_, rfl⟩
  | cons f fs' => exact ⟨_, rfl⟩

theorem parse_ser (fuel : Nat) :
    (∀ (v : Json) (rest : List Char), jfuel v ≤ fuel →
      (∀ c, rest.head? = some c → isDigitChar c = false) →
      parseValue fuel (serValue v ++ rest) = some (v, rest)) ∧
    (∀ (vs : List Json) (acc : List Json) (rest : List Char), vs ≠ [] →
      jfuelList vs ≤ fuel →
      parseElements fuel (serElems vs ++ (']' :: rest)) acc =
        some (.arr (acc.reverse ++ vs), rest)) ∧
    (∀ (fs : List (String × Json)) (acc : List (String × Json))
      (rest : List Char), fs ≠ [] → jfuelFields fs ≤ fuel →
      parseMembers fuel (serMembers fs ++ ('\x7d' :: rest)) acc =
        some (.obj (acc.reverse ++ fs), rest)) := by
  induction fuel with
  | zero =>
    refine ⟨?_, ?_, ?_⟩
    · intro v _ h _
      have := jfuel_pos v
      omega
    · intro vs _ _ _ h
      have := jfuelList_pos vs
      omega
    · intro fs _ _ _ h
      have := jfuelFields_pos fs
      omega
  | succ f ih =>
    obtain ⟨ihV, ihE, ihM⟩ := ih
    refine ⟨?_, ?_, ?_⟩
    · intro v rest hf hnd
      cases v with
      | null =>
        show parseValue (f + 1) ('n' :: 'u' :: 'l' :: 'l' :: rest) = _
        simp [parseValue, skipWs]
      | bool b =>
        cases b with
        | false =>
          show parseValue (f + 1) ('f' :: 'a' :: 'l' :: 's' :: 'e' :: rest) = _
          simp [parseValue, skipWs]
        | true =>
          show parseValue (f + 1) ('t' :: 'r' :: 'u' :: 'e' :: rest) = _
          simp [parseValue, skipWs]
      | num n =>
        obtain ⟨c, cs, hc, hd⟩ := intChars_shape n
        obtain ⟨p1, p2, p3, p4, p5, p6, p7, p8, p9, p10, _, _⟩ :=
          digit_head_props c hd
        show parseValue (f + 1) (intChars n ++ rest) = _
        rw [show intChars n ++ rest = c :: (cs ++ rest) from by rw [hc]; rfl]
        simp only [parseValue]
        rw [skipWs_not_ws c _ ⟨p7, p8, p9, p10⟩]
        dsimp only
        rw [if_neg p1, if_neg p2, if_neg p3, if_neg p4, if_neg p5, if_neg p6]
        rw [if_pos (by rcases hd with h | h <;> simp [h])]
        rw [show c :: (cs ++ rest) = intChars n ++ rest from by rw [hc]; rfl]
        exact parseNumber_intChars n rest hnd
      | str s =>
        show parseValue (f + 1)
          ('"' :: ((serStr s.data ++ ['"']) ++ rest)) = _
        simp only [parseValue]
        rw [skipWs_not_ws '"' _ ⟨by decide, by decide, by decide, by decide⟩]
        dsimp only
        rw [if_neg (by decide), if_neg (by decide), if_neg (by decide),
            if_pos rfl]
        rw [show (serStr s.data ++ ['"']) ++ rest =
            serStr s.data ++ ('"' :: rest) from by simp]
        rw [parseStringBody_serStr s.data _ rest []
          (by have := serStr_length s.data
              simp only [List.length_append, List.length_cons]
              omega)]
        simp [string_mk_data]
      | arr vs =>
        cases vs with
        | nil =>
          show parseValue (f + 1) ('[' :: (']' :: rest)) = _
          simp [parseValue, skipWs]
        | cons v vs2 =>
          obtain ⟨c0, cs0, hc0, q1, q2, q3, q4, q5, q6⟩ := serValue_shape v
          obtain ⟨tl, htl⟩ := serElems_head v vs2 c0 cs0 hc0
          show parseValue (f + 1)
            ('[' :: ((serElems (v :: vs2) ++ [']']) ++ rest)) = _
          simp only [parseValue]
          rw [skipWs_not_ws '[' _ ⟨by decide, by decide, by decide, by decide⟩]
          dsimp only
          rw [if_neg (by decide), if_neg (by decide), if_neg (by decide),
              if_neg (by decide), if_pos rfl]
          have hr : (serElems (v :: vs2) ++ [']']) ++ rest =
              c0 :: (tl ++ (']' :: rest)) := by
            rw [List.append_assoc, htl]
            rfl
          rw [hr]
          rw [skipWs_not_ws c0 _ ⟨q1, q2, q3, q4⟩]
          dsimp only
          rw [if_neg q5]
          rw [show c0 :: (tl ++ (']' :: rest)) =
              serElems (v :: vs2) ++ (']' :: rest) from by rw [htl]; rfl]
          rw [ihE (v :: vs2) [] rest (by simp)
            (by simp only [jfuel] at hf; omega)]
          simp
      | obj fs =>
        cases fs with
        | nil =>
          show parseValue (f + 1) ('\x7b' :: ('\x7d' :: rest)) = _
          simp [parseValue, skipWs]
        | cons kv fs2 =>
          obtain ⟨k, v⟩ := kv
          obtain ⟨tl, htl⟩ := serMembers_head k v fs2
          show parseValue (f + 1)
            ('\x7b' :: ((serMembers ((k, v) :: fs2) ++ ['\x7d']) ++ rest)) = _
          simp only [parseValue]
          rw [skipWs_not_ws '\x7b' _ ⟨by decide, by decide, by decide, by decide⟩]
          dsimp only
          rw [if_neg (by decide), if_neg (by decide), if_neg (by decide),
              if_neg (by decide), if_neg (by decide), if_pos rfl]
          have hr : (serMembers ((k, v) :: fs2) ++ ['\x7d']) ++ rest =
              '"' :: (tl ++ ('\x7d' :: rest)) := by
            rw [List.append_assoc, htl]
            rfl
          rw [hr]
          rw [skipWs_not_ws '"' _ ⟨by decide, by decide, by decide, by decide⟩]
          dsimp only
          rw [if_neg (by decide)]
          rw [show ('"' : Char) :: (tl ++ ('\x7d' :: rest)) =
              serMembers ((k, v) :: fs2) ++ ('\x7d' :: rest) from by rw [htl]; rfl]
          rw [ihM ((k, v) :: fs2) [] rest (by simp)
            (by simp only [jfuel] at hf; omega)]
          simp
    · intro vs acc rest hne hfl
      cases vs with
      | nil => exact absurd rfl hne
      | cons v vs2 =>
        cases vs2 with
        | nil =>
          show parseElements (f + 1) (serValue v ++ (']' :: rest)) acc = _
          simp only [parseElements]
          rw [ihV v (']' :: rest)
            (by simp only [jfuelList] at hfl; omega)
            (head_not_digit ']' (by decide) rest)]
          dsimp only
          rw [skipWs_not_ws ']' _ ⟨by decide, by decide, by decide, by decide⟩]
          dsimp only
          rw [if_neg (by decide), if_pos rfl]
          simp
        | cons v2 vs3 =>
          show parseElements (f + 1)
            (((serValue v ++ [',', ' ']) ++ serElems (v2 :: vs3)) ++
              (']' :: rest)) acc = _
          rw [show ((serValue v ++ [',', ' ']) ++ serElems (v2 :: vs3)) ++
              (']' :: rest) =
              serValue v ++ (',' :: ' ' :: (serElems (v2 :: vs3) ++
                (']' :: rest))) from by simp]
          simp only [parseElements]
          rw [ihV v _ (by simp only [jfuelList] at hfl; omega)
            (head_not_digit ',' (by decide) _)]
          dsimp only
          rw [skipWs_not_ws ',' _ ⟨by decide, by decide, by decide, by decide⟩]
          dsimp only
          rw [if_pos rfl]
          rw [parseElements_space]
          rw [ihE (v2 :: vs3) (v :: acc) rest (by simp)
            (by simp only [jfuelList] at hfl ⊢; omega)]
          simp
    · intro fs acc rest hne hfl
      cases fs with
      | nil => exact absurd rfl hne
      | cons kv fs2 =>
        obtain ⟨k, v⟩ := kv
        cases fs2 with
        | nil =>
          show parseMembers (f + 1)
            ((('"' :: (serStr k.data ++ ['"', ':', ' '])) ++ serValue v) ++
              ('\x7d' :: rest)) acc = _
          rw [show (('"' :: (serStr k.data ++ ['"', ':', ' '])) ++ serValue v) ++
              ('\x7d' :: rest) =
              '"' :: (serStr k.data ++ ('"' :: ':' :: ' ' ::
                (serValue v ++ ('\x7d' :: rest)))) from by simp]
          simp only [parseMembers]
          rw [skipWs_not_ws '"' _ ⟨by decide, by decide, by decide, by decide⟩]
          dsimp only
          rw [if_pos rfl]
          rw [parseStringBody_serStr k.data _ _ []
            (by have := serStr_length k.data
                simp only [List.length_append, List.length_cons]
                omega)]
          dsimp only
          rw [skipWs_not_ws ':' _ ⟨by decide, by decide, by decide, by decide⟩]
          dsimp only
          rw [if_pos rfl]
          rw [parseValue_space]
          rw [ihV v _ (by simp only [jfuelFields] at hfl; omega)
            (head_not_digit '\x7d' (by decide) _)]
          dsimp only
          rw [skipWs_not_ws '\x7d' _ ⟨by decide, by decide, by decide, by decide⟩]
          dsimp only
          rw [if_neg (by decide), if_pos rfl]
          simp [string_mk_data]
        | cons kv2 fs3 =>
          show parseMembers (f + 1)
            (((('"' :: (serStr k.data ++ ['"', ':', ' '])) ++ serValue v ++
              [',', ' ']) ++ serMembers (kv2 :: fs3)) ++ ('\x7d' :: rest)) acc = _
          rw [show ((('"' :: (serStr k.data ++ ['"', ':', ' '])) ++ serValue v ++
              [',', ' ']) ++ serMembers (kv2 :: fs3)) ++ ('\x7d' :: rest) =
              '"' :: (serStr k.data ++ ('"' :: ':' :: ' ' ::
                (serValue v ++ (',' :: ' ' :: (serMembers (kv2 :: fs3) ++
                  ('\x7d' :: rest)))))) from by simp]
          simp only [parseMembers]
          rw [skipWs_not_ws '"' _ ⟨by decide, by decide, by decide, by decide⟩]
          dsimp only
          rw [if_pos rfl]
          rw [parseStringBody_serStr k.data _ _ []
            (by have := serStr_length k.data
                simp only [List.length_append, List.length_cons]
                omega)]
          dsimp only
          rw [skipWs_not_ws ':' _ ⟨by decide, by decide, by decide, by decide⟩]
          dsimp only
          rw [if_pos rfl]
          rw [parseValue_space]
          rw [ihV v _ (by simp only [jfuelFields] at hfl; omega)
            (head_not_digit ',' (by decide) _)]
          dsimp only
          rw [skipWs_not_ws ',' _ ⟨by decide, by decide, by decide, by decide⟩]
          dsimp only
          rw [if_pos rfl]
          rw [parseMembers_space]
          simp only [List.reverse_nil, List.nil_append, string_mk_data]
          rw [ihM (kv2 :: fs3) ((k, v) :: acc) rest (by simp)
            (by obtain ⟨k2, v2⟩ := kv2
                simp only [jfuelFields] at hfl ⊢
                omega)]
          simp

mutual
theorem jfuel_le : ∀ v : Json, jfuel v ≤ 2 * (serValue v).length
  | .null => by simp [jfuel, serValue]
  | .bool true => by simp [jfuel, serValue]
  | .bool false => by simp [jfuel, serValue]
  | .num n => by
    obtain ⟨c, cs, hc, _⟩ := intChars_shape n
    simp [jfuel, serValue, hc]
    omega
  | .str s => by simp [jfuel, serValue]; omega
  | .arr vs => by
    have h := jfuelList_le vs
    simp only [jfuel, serValue, List.length_cons, List.length_append,
      List.length_singleton]
    omega
  | .obj fs => by
    have h := jfuelFields_le fs
    simp only [jfuel, serValue, List.length_cons, List.length_append,
      List.length_singleton]
    omega
theorem jfuelList_le : ∀ vs : List Json, jfuelList vs ≤ 3 + 2 * (serElems vs).length
  | [] => by simp [jfuelList, serElems]
  | [v] => by
    have h := jfuel_le v
    simp only [jfuelList, serElems]
    omega
  | v :: v2 :: vs => by
    have h1 := jfuel_le v
    have h2 := jfuelList_le (v2 :: vs)
    rw [show jfuelList (v :: v2 :: vs) =
        1 + jfuel v + jfuelList (v2 :: vs) from rfl,
      show serElems (v :: v2 :: vs) =
        serValue v ++ [',', ' '] ++ serElems (v2 :: vs) from rfl]
    simp only [List.length_append, List.length_cons]
    omega
theorem jfuelFields_le : ∀ fs : List (String × Json), jfuelFields fs ≤ 3 + 2 * (serMembers fs).length
  | [] => by simp [jfuelFields, serMembers]
  | [(k, v)] => by
    have h := jfuel_le v
    simp only [jfuelFields, serMembers, List.length_append, List.length_cons]
    omega
  | (k, v) :: f :: fs => by
    have h1 := jfuel_le v
    have h2 := jfuelFields_le (f :: fs)
    rw [show jfuelFields ((k, v) :: f :: fs) =
        1 + jfuel v + jfuelFields (f :: fs) from rfl,
      show serMembers ((k, v) :: f :: fs) =
        '"' :: (serStr k.data ++ ['"', ':', ' ']) ++ serValue v ++ [',', ' '] ++
          serMembers (f :: fs) from rfl]
    simp only [List.length_append, List.length_cons]
    omega
end

theorem json_loads_dumps (v : Json) : json_loads (json_dumps v) = some v := by
  unfold json_loads json_dumps
  have hd : (String.mk (serValue v)).data = serValue v := rfl
  rw [hd]
  have hA := (parse_ser (2 * (serValue v).length + 2)).1 v []
    (by have := jfuel_le v; omega) (by intro c h; simp at h)
  rw [show serValue v ++ ([] : List Char) = serValue v from by simp] at hA
  rw [hA]
  simp [skipWs]

theorem parseValue_plain_str (f : Nat) (cs rest : List Char)
    (h : ∀ c ∈ cs, plainChar c) :
    parseValue (f + 1) ('"' :: (cs ++ ('"' :: rest))) =
      some (.str (String.mk cs), rest) := by
  simp only [parseValue]
  rw [skipWs_not_ws '"' _ ⟨by decide, by decide, by decide, by decide⟩]
  dsimp only
  rw [if_neg (by decide), if_neg (by decide), if_neg (by decide), if_pos rfl]
  rw [parseStringBody_plain cs h _ rest []
    (by simp only [List.length_append, List.length_cons]; omega)]
  simp

theorem parseMembers_step (f : Nat) (kcs valRest : List Char)
    (hk : ∀ c ∈ kcs, plainChar c) (acc : List (String × Json)) (v : Json)
    (r4 : List Char) (hval : parseValue f valRest = some (v, r4)) :
    parseMembers (f + 1) ('"' :: (kcs ++ ('"' :: ':' :: valRest))) acc =
      (match skipWs r4 with
       | [] => none
       | c2 :: r5 =>
         if c2 = ',' then parseMembers f r5 ((String.mk kcs, v) :: acc)
         else if c2 = '\x7d' then
           some (.obj ((String.mk kcs, v) :: acc).reverse, r5)
         else none) := by
  simp only [parseMembers]
  rw [skipWs_not_ws '"' _ ⟨by decide, by decide, by decide, by decide⟩]
  dsimp only
  rw [if_pos rfl]
  rw [parseStringBody_plain kcs hk _ (':' :: valRest) []
    (by simp only [List.length_append, List.length_cons]; omega)]
  dsimp only
  rw [skipWs_not_ws ':' _ ⟨by decide, by decide, by decide, by decide⟩]
  dsimp only
  rw [if_pos rfl]
  rw [hval]
  simp only [List.reverse_nil, List.nil_append]

theorem parseValue_obj_open (f : Nat) (c0 : Char) (tl : List Char)
    (h0 : c0 = '"') :
    parseValue (f + 1) ('\x7b' :: (c0 :: tl)) = parseMembers f (c0 :: tl) [] := by
  subst h0
  simp only [parseValue]
  rw [skipWs_not_ws '\x7b' _ ⟨by decide, by decide, by decide, by decide⟩]
  dsimp only
  rw [if_neg (by decide), if_neg (by decide), if_neg (by decide),
      if_neg (by decide), if_neg (by decide), if_pos rfl]
  rw [skipWs_not_ws '"' _ ⟨by decide, by decide, by decide, by decide⟩]
  dsimp only
  rw [if_neg (by decide)]

theorem parse_generate_request (m : String) (hm : ∀ c ∈ m.data, plainChar c)
    (id : Rpc.IdVal) (params : Json) (fuel : Nat)
    (hfuel : jfuel params + 6 ≤ fuel) :
    parseValue fuel ((Rpc.generate_request m (some id) params).data) =
      some (Json.obj (("jsonrpc", Json.str "2.0") :: ("method", Json.str m) ::
        ("id", Rpc.idJson id) ::
        (if params = Json.null then [] else [("params", params)])), []) := by
  obtain ⟨g, rfl⟩ : ∃ g, fuel = g + 1 + 1 + 1 + 1 + 1 + 1 :=
    ⟨fuel - 6, by have := jfuel_pos params; omega⟩
  have hjp : jfuel params ≤ g + 1 := by omega
  by_cases hp : params = Json.null
  · subst hp
    rw [if_pos rfl]
    have hdata : (Rpc.generate_request m (some id) Json.null).data =
        '\x7b' :: '"' :: ("jsonrpc".data ++ ('"' :: ':' :: '"' :: ("2.0".data ++ ('"' :: ',' :: '"' :: ("method".data ++ ('"' :: ':' :: '"' :: (m.data ++ ('"' :: ',' :: '"' :: ("id".data ++ ('"' :: ':' :: ((Rpc.idEnc id).data ++ ['\x7d']))))))))))) := by
      cases id with
      | int n =>
        simp only [Rpc.generate_request, Rpc.idEnc, eq_self_iff_true, if_true,
          String.data_append]
        simp
      | str s =>
        simp only [Rpc.generate_request, Rpc.idEnc, eq_self_iff_true, if_true,
          String.data_append]
        simp
    rw [hdata]
    rw [parseValue_obj_open (g + 1 + 1 + 1 + 1 + 1) '"' _ rfl]
    rw [parseMembers_step (g + 1 + 1 + 1 + 1) ("jsonrpc".data) _ (by decide) []
      (Json.str "2.0") _
      (parseValue_plain_str (g + 1 + 1 + 1) ("2.0".data)
        (',' :: '"' :: ("method".data ++ ('"' :: ':' :: '"' :: (m.data ++ ('"' :: ',' :: '"' :: ("id".data ++ ('"' :: ':' :: ((Rpc.idEnc id).data ++ ['\x7d'])))))))) (by decide))]
    rw [skipWs_not_ws ',' _ ⟨by decide, by decide, by decide, by decide⟩]
    dsimp only
    rw [if_pos rfl]
    rw [parseMembers_step (g + 1 + 1 + 1) ("method".data) _ (by decide) _
      (Json.str m) _
      (parseValue_plain_str (g + 1 + 1) m.data
        (',' :: '"' :: ("id".data ++ ('"' :: ':' :: ((Rpc.idEnc id).data ++ ['\x7d'])))) hm)]
    rw [skipWs_not_ws ',' _ ⟨by decide, by decide, by decide, by decide⟩]
    dsimp only
    rw [if_pos rfl]
    rw [parseMembers_step (g + 1 + 1) ("id".data) _ (by decide) _
      (Rpc.idJson id) ['\x7d']
      (by
        cases id with
        | int n =>
          exact (parse_ser (g + 1 + 1)).1 (Json.num n) ['\x7d']
            (by have : jfuel (Json.num n) = 1 := rfl; omega)
            (head_not_digit '\x7d' (by decide) [])
        | str s =>
          exact (parse_ser (g + 1 + 1)).1 (Json.str s) ['\x7d']
            (by have : jfuel (Json.str s) = 1 := rfl; omega)
            (head_not_digit '\x7d' (by decide) []))]
    rw [skipWs_not_ws '\x7d' _ ⟨by decide, by decide, by decide, by decide⟩]
    dsimp only
    rw [if_neg (by decide), if_pos rfl]
    simp [string_mk_data]
  · rw [if_neg hp]
    have hdata : (Rpc.generate_request m (some id) params).data =
        '\x7b' :: '"' :: ("jsonrpc".data ++ ('"' :: ':' :: '"' :: ("2.0".data ++ ('"' :: ',' :: '"' :: ("method".data ++ ('"' :: ':' :: '"' :: (m.data ++ ('"' :: ',' :: '"' :: ("id".data ++ ('"' :: ':' :: ((Rpc.idEnc id).data ++ (',' :: '"' :: ("params".data ++ ('"' :: ':' :: (serValue params ++ ['\x7d']))))))))))))))) := by
      cases id with
      | int n =>
        simp only [Rpc.generate_request, Rpc.idEnc, hp, if_false,
          String.data_append]
        simp only [json_dumps]
        show _ ++ _ = _
        simp
      | str s =>
        simp only [Rpc.generate_request, Rpc.idEnc, hp, if_false,
          String.data_append]
        simp only [json_dumps]
        show _ ++ _ = _
        simp
    rw [hdata]
    rw [parseValue_obj_open (g + 1 + 1 + 1 + 1 + 1) '"' _ rfl]
    rw [parseMembers_step (g + 1 + 1 + 1 + 1) ("jsonrpc".data) _ (by decide) []
      (Json.str "2.0") _
      (parseValue_plain_str (g + 1 + 1 + 1) ("2.0".data)
        (',' :: '"' :: ("method".data ++ ('"' :: ':' :: '"' :: (m.data ++ ('"' :: ',' :: '"' :: ("id".data ++ ('"' :: ':' :: ((Rpc.idEnc id).data ++ (',' :: '"' :: ("params".data ++ ('"' :: ':' :: (serValue params ++ ['\x7d'])))))))))))) (by decide))]
    rw [skipWs_not_ws ',' _ ⟨by decide, by decide, by decide, by decide⟩]
    dsimp only
    rw [if_pos rfl]
    rw [parseMembers_step (g + 1 + 1 + 1) ("method".data) _ (by decide) _
      (Json.str m) _
      (parseValue_plain_str (g + 1 + 1) m.data
        (',' :: '"' :: ("id".data ++ ('"' :: ':' :: ((Rpc.idEnc id).data ++ (',' :: '"' :: ("params".data ++ ('"' :: ':' :: (serValue params ++ ['\x7d'])))))))) hm)]
    rw [skipWs_not_ws ',' _ ⟨by decide, by decide, by decide, by decide⟩]
    dsimp only
    rw [if_pos rfl]
    rw [parseMembers_step (g + 1 + 1) ("id".data) _ (by decide) _
      (Rpc.idJson id) (',' :: '"' :: ("params".data ++ ('"' :: ':' :: (serValue params ++ ['\x7d']))))
      (by
        cases id with
        | int n =>
          exact (parse_ser (g + 1 + 1)).1 (Json.num n) (',' :: '"' :: ("params".data ++ ('"' :: ':' :: (serValue params ++ ['\x7d']))))
            (by have : jfuel (Json.num n) = 1 := rfl; omega)
            (head_not_digit ',' (by decide) _)
        | str s =>
          exact (parse_ser (g + 1 + 1)).1 (Json.str s) (',' :: '"' :: ("params".data ++ ('"' :: ':' :: (serValue params ++ ['\x7d']))))
            (by have : jfuel (Json.str s) = 1 := rfl; omega)
            (head_not_digit ',' (by decide) _))]
    rw [skipWs_not_ws ',' _ ⟨by decide, by decide, by decide, by decide⟩]
    dsimp only
    rw [if_pos rfl]
    rw [parseMembers_step (g + 1) ("params".data) _ (by decide) _
      params ['\x7d']
      ((parse_ser (g + 1)).1 params ['\x7d'] hjp
        (head_not_digit '\x7d' (by decide) []))]
    rw [skipWs_not_ws '\x7d' _ ⟨by decide, by decide, by decide, by decide⟩]
    dsimp only
    rw [if_neg (by decide), if_pos rfl]
    simp [string_mk_data]

/-! Association-list lemmas. -/

theorem kvGet_kvSet_self {κ α : Type} [DecidableEq κ]
    (l : List (κ × α)) (k : κ) (v : α) : kvGet (kvSet l k v) k = some v := by
  induction l with
  | nil => simp [kvSet, kvGet]
  | cons p rest ih =>
    obtain ⟨k2, v2⟩ := p
    by_cases h : k2 = k
    · simp [kvSet, kvGet, h]
    · simp [kvSet, kvGet, h, ih]

theorem kvGet_kvSet_ne {κ α : Type} [DecidableEq κ]
    (l : List (κ × α)) (k k2 : κ) (v : α) (h : k2 ≠ k) :
    kvGet (kvSet l k v) k2 = kvGet l k2 := by
  induction l with
  | nil => simp [kvSet, kvGet, Ne.symm h]
  | cons p rest ih =>
    obtain ⟨k3, v3⟩ := p
    by_cases h3 : k3 = k
    · subst h3
      simp [kvSet, kvGet, Ne.symm h]
    · simp only [kvSet, if_neg h3, kvGet]
      by_cases h4 : k3 = k2
      · simp [h4]
      · simp [h4, ih]

theorem kvSet_of_not_has {κ α : Type} [DecidableEq κ]
    (l : List (κ × α)) (k : κ) (v : α) (h : kvHas l k = false) :
    kvSet l k v = l ++ [(k, v)] := by
  induction l with
  | nil => simp [kvSet]
  | cons p rest ih =>
    obtain ⟨k2, v2⟩ := p
    by_cases h2 : k2 = k
    · exfalso
      rw [kvHas] at h
      simp [kvGet, h2] at h
    · have h2' : kvHas rest k = false := by
        rw [kvHas] at h ⊢
        simpa [kvGet, h2] using h
      simp only [kvSet, if_neg h2, List.cons_append, List.cons.injEq, true_and]
      exact ih h2'

theorem kvSet_keys_of_has {κ α : Type} [DecidableEq κ]
    (l : List (κ × α)) (k : κ) (v : α) (h : kvHas l k = true) :
    (kvSet l k v).map Prod.fst = l.map Prod.fst := by
  induction l with
  | nil => simp [kvHas, kvGet] at h
  | cons p rest ih =>
    obtain ⟨k2, v2⟩ := p
    by_cases h2 : k2 = k
    · simp [kvSet, h2]
    · simp only [kvSet, if_neg h2, List.map_cons]
      rw [ih (by simpa [kvHas, kvGet, h2] using h)]

theorem kvGet_eq_none_of_not_mem {κ α : Type} [DecidableEq κ]
    (l : List (κ × α)) (k : κ) (h : k ∉ l.map Prod.fst) :
    kvGet l k = none := by
  induction l with
  | nil => rfl
  | cons p rest ih =>
    obtain ⟨k2, v2⟩ := p
    simp only [List.map_cons, List.mem_cons] at h
    push_neg at h
    simp only [kvGet]
    rw [if_neg (Ne.symm h.1)]
    exact ih h.2

theorem kvGet_isSome_mem {κ α : Type} [DecidableEq κ]
    (l : List (κ × α)) (k : κ) (h : kvHas l k = true) :
    k ∈ l.map Prod.fst := by
  by_contra hmem
  rw [kvHas, kvGet_eq_none_of_not_mem l k hmem] at h
  simp at h

theorem kvDel_keys_sublist {κ α : Type} [DecidableEq κ]
    (l : List (κ × α)) (k : κ) :
    ((kvDel l k).map Prod.fst).Sublist (l.map Prod.fst) := by
  induction l with
  | nil => simp [kvDel]
  | cons p rest ih =>
    obtain ⟨k2, v2⟩ := p
    by_cases h : k2 = k
    · simp only [kvDel, if_pos h, List.map_cons]
      exact (List.sublist_cons_self k2 _)
    · simp only [kvDel, if_neg h, List.map_cons]
      exact ih.cons₂ k2

theorem kvGet_kvDel_self_of_nodup {κ α : Type} [DecidableEq κ]
    (l : List (κ × α)) (k : κ) (h : (l.map Prod.fst).Nodup) :
    kvGet (kvDel l k) k = none := by
  induction l with
  | nil => rfl
  | cons p rest ih =>
    obtain ⟨k2, v2⟩ := p
    simp only [List.map_cons, List.nodup_cons] at h
    by_cases h2 : k2 = k
    · subst h2
      simp only [kvDel, if_pos rfl]
      exact kvGet_eq_none_of_not_mem rest k2 h.1
    · simp only [kvDel, if_neg h2, kvGet, if_neg h2]
      exact ih h.2

/-! Claim theorems. -/

theorem line_run_iter_cases (s : Rpc.LineState) :
    Rpc.line_run_iter s = none ∨ Rpc.line_run_iter s = some s := by
  unfold Rpc.line_run_iter
  split_ifs <;> simp

theorem line_run_fix : ∀ (n : Nat) (s : Rpc.LineState), Rpc.line_run n s = s := by
  intro n
  induction n with
  | zero => intro s; rfl
  | succ n ih =>
    intro s
    show (match Rpc.line_run_iter s with
      | none => s
      | some s2 => Rpc.line_run n s2) = s
    rcases line_run_iter_cases s with h | h <;> rw [h]
    exact ih s

/-- Claim C1 (code bug): Line.run in rpc.py never performs a read attempt;
line is assigned None and never rebound, so on every iteration with the
stop event clear and stdin open the loop merely waits, the pending input is
never consumed, and EYWA._handle is never invoked. In particular, starting
from a state with one complete request line available on stdin, arbitrarily
many loop iterations leave the state unchanged and dispatch nothing,
contradicting the contract that every such iteration reads a line and feeds
it to the dispatcher. -/
theorem c1_line_run_never_reads :
    (∀ (n : Nat) (s : Rpc.LineState),
      (Rpc.line_run n s).input = s.input ∧
      (Rpc.line_run n s).handled = s.handled) ∧
    (Rpc.line_run 100
        ⟨false, false, ["\x7b\"jsonrpc\":\"2.0\",\"method\":\"x\"\x7d"], []⟩ =
      ⟨false, false, ["\x7b\"jsonrpc\":\"2.0\",\"method\":\"x\"\x7d"], []⟩) ∧
    Rpc.line_run_iter
        ⟨false, false, ["\x7b\"jsonrpc\":\"2.0\",\"method\":\"x\"\x7d"], []⟩ =
      some ⟨false, false, ["\x7b\"jsonrpc\":\"2.0\",\"method\":\"x\"\x7d"], []⟩ := by
  refine ⟨fun n s => ?_, ?_, ?_⟩
  · rw [line_run_fix n s]
    exact ⟨rfl, rfl⟩
  · rw [line_run_fix]
  · rfl


/-- Claim C2 is refuted on the async path: after send_request registers
token tok1 and a success response with that id arrives, the await resumes
with the WHOLE response envelope - not the value of its result field. At
the concrete envelope below the call returns the envelope object, which
differs from the result value 42 the claim requires. -/
theorem c2_counterexample :
    Aio.send_request_finish
        (Aio.handle_response
          (Aio.send_request_start [] [("method", Json.str "m")] "tok1").1
          (Json.obj [("jsonrpc", .str "2.0"), ("id", .str "tok1"),
            ("result", .num 42)]))
        "tok1" =
      some ([], Json.obj [("jsonrpc", .str "2.0"), ("id", .str "tok1"),
        ("result", .num 42)]) ∧
    jget (Json.obj [("jsonrpc", .str "2.0"), ("id", .str "tok1"),
        ("result", .num 42)]) "result" = some (Json.num 42) ∧
    Json.obj [("jsonrpc", .str "2.0"), ("id", .str "tok1"),
        ("result", .num 42)] ≠ Json.num 42 := by
  refine ⟨by decide, by decide, by decide⟩


theorem kvHas_of_mem {κ α : Type} [DecidableEq κ] (l : List (κ × α)) (k : κ)
    (h : k ∈ l.map Prod.fst) : kvHas l k = true := by
  induction l with
  | nil => simp at h
  | cons p rest ih =>
    obtain ⟨k2, v2⟩ := p
    rw [kvHas, kvGet]
    by_cases h2 : k2 = k
    · simp [h2]
    · simp only [if_neg h2]
      simp only [List.map_cons, List.mem_cons] at h
      rcases h with h | h
      · exact absurd h.symm h2
      · exact ih h

theorem kvSet_twice_keys_nodup {κ α : Type} [DecidableEq κ]
    (l : List (κ × α)) (k : κ) (v1 v2 : α) (hnod : (l.map Prod.fst).Nodup) :
    ((kvSet (kvSet l k v1) k v2).map Prod.fst).Nodup := by
  rw [kvSet_keys_of_has _ _ _ (by rw [kvHas, kvGet_kvSet_self]; rfl)]
  by_cases hh : kvHas l k = true
  · rw [kvSet_keys_of_has _ _ _ hh]
    exact hnod
  · rw [kvSet_of_not_has _ _ _ (by simpa using hh)]
    simp only [List.map_append, List.map_cons, List.map_nil]
    rw [List.nodup_append]
    refine ⟨hnod, by simp, ?_⟩
    intro a ha hb
    simp only [List.mem_singleton] at hb
    subst hb
    exact hh (kvHas_of_mem _ _ ha)

/-- Claim C2 as amended: in the thread-based client a blocking send
followed by a matching success response resumes the poll loop with exactly
the response's result value and removes the pending entry; in the async
client the caller instead resumes with the whole response envelope (the
future is resolved with the decoded data object itself), and the pending
entry is likewise removed on resumption. -/
theorem c2_amended :
    (∀ (st : Rpc.EywaState) (method : String) (params : Json) (v res : Json),
      (st.results.map Prod.fst).Nodup →
      st.callbacks.contains (st.i + 1) = false →
      jget res "id" = some (.num (st.i + 1)) →
      jget res "result" = some v →
      Rpc.handle_response (Rpc.send st method params false true).1 res =
        some (⟨st.i + 1, st.callbacks,
          kvSet (kvSet st.results (st.i + 1) Rpc.Slot.empty) (st.i + 1)
            (Rpc.Slot.value v)⟩, none) ∧
      Rpc.pollResult
          ⟨st.i + 1, st.callbacks,
            kvSet (kvSet st.results (st.i + 1) Rpc.Slot.empty) (st.i + 1)
              (Rpc.Slot.value v)⟩ (st.i + 1) =
        some (⟨st.i + 1, st.callbacks,
          kvDel (kvSet (kvSet st.results (st.i + 1) Rpc.Slot.empty)
            (st.i + 1) (Rpc.Slot.value v)) (st.i + 1)⟩, Sum.inr v) ∧
      kvGet (kvDel (kvSet (kvSet st.results (st.i + 1) Rpc.Slot.empty)
          (st.i + 1) (Rpc.Slot.value v)) (st.i + 1)) (st.i + 1) = none) ∧
    (∀ (cbs : Aio.Callbacks) (data : List (String × Json)) (tok : String)
      (env : Json),
      (cbs.map Prod.fst).Nodup →
      jget env "id" = some (.str tok) →
      Aio.send_request_finish
          (Aio.handle_response (Aio.send_request_start cbs data tok).1 env)
          tok =
        some (kvDel (kvSet (kvSet cbs tok none) tok (some env)) tok, env) ∧
      kvGet (kvDel (kvSet (kvSet cbs tok none) tok (some env)) tok) tok =
        none) := by
  constructor
  · intro st method params v res hnod hcb hid hres
    have hsend : (Rpc.send st method params false true).1 =
        ⟨st.i + 1, st.callbacks,
          kvSet st.results (st.i + 1) Rpc.Slot.empty⟩ := rfl
    have hhas : kvHas (kvSet st.results (st.i + 1) Rpc.Slot.empty)
        (st.i + 1) = true := by
      rw [kvHas, kvGet_kvSet_self]
      rfl
    refine ⟨?_, ?_, ?_⟩
    · rw [hsend]
      unfold Rpc.handle_response
      rw [hid]
      dsimp only
      rw [hhas]
      simp only [Bool.true_or, if_true]
      rw [hres]
      dsimp only
      rw [if_neg]
      simpa using hcb
    · unfold Rpc.pollResult
      rw [kvGet_kvSet_self]
    · exact kvGet_kvDel_self_of_nodup _ _
        (kvSet_twice_keys_nodup _ _ _ _ hnod)
  · intro cbs data tok env hnod hid
    have hstart : (Aio.send_request_start cbs data tok).1 =
        kvSet cbs tok none := rfl
    have hresp : Aio.handle_response (kvSet cbs tok none) env =
        kvSet (kvSet cbs tok none) tok (some env) := by
      unfold Aio.handle_response
      rw [hid]
      dsimp only
      rw [show kvHas (kvSet cbs tok none) tok = true from by
        rw [kvHas, kvGet_kvSet_self]; rfl]
      simp
    rw [hstart, hresp]
    refine ⟨?_, kvGet_kvDel_self_of_nodup _ _
      (kvSet_twice_keys_nodup _ _ _ _ hnod)⟩
    unfold Aio.send_request_finish
    rw [kvGet_kvSet_self]

theorem c2_amended_witness :
    Rpc.handle_response
        (Rpc.send Rpc.initEywa "task.get" Json.null false true).1
        (Json.obj [("jsonrpc", .str "2.0"), ("id", .num 0),
          ("result", .num 42)]) =
      some (⟨0, [], [(0, Rpc.Slot.value (.num 42))]⟩, none) ∧
    Aio.send_request_finish
        (Aio.handle_response
          (Aio.send_request_start [] [("method", Json.str "q")] "t7").1
          (Json.obj [("id", .str "t7"), ("result", Json.null)]))
        "t7" =
      some ([], Json.obj [("id", .str "t7"), ("result", Json.null)]) := by
  constructor
  · have h := (c2_amended.1 Rpc.initEywa "task.get" Json.null (.num 42)
      (Json.obj [("jsonrpc", .str "2.0"), ("id", .num 0), ("result", .num 42)])
      (by decide) (by decide) (by decide) (by decide)).1
    have h2 : Rpc.initEywa.i + 1 = 0 := by decide
    rw [h2] at h
    exact h
  · have h := (c2_amended.2 [] [("method", Json.str "q")] "t7"
      (Json.obj [("id", .str "t7"), ("result", Json.null)])
      (by decide) (by decide)).1
    exact h

/-- C3: the spec/claim classification is refuted on both classifiers. In
the async client an object whose "method" field is the empty string has a
method field yet is printed as invalid, not classified as a request (the
dispatch tests Python truthiness, not presence). In the thread client an
object matching none of the four shapes is not logged as invalid: the
empty object is routed to the response handler. -/
theorem c3_counterexample :
    (jhas (Json.obj [("method", Json.str "")]) "method" = true ∧
      Aio.handle_data (Json.obj [("method", Json.str "")]) =
        Aio.Classified.invalid) ∧
    Rpc.handle_dispatch (Json.obj []) = Rpc.RpcRoute.response := by
  exact ⟨⟨by decide, by decide⟩, by decide⟩

/-- C3 (amended): the real classification. The async classifier tests
Python truthiness in order: truthy method means request; else truthy
result with truthy id means response-success; else truthy error with
truthy id means response-error; else the object is printed as invalid
and dropped. The thread classifier routes on key presence only: "method"
present means request, else "error" absent means response, else error.
The falsy examples (result null, false, 0, empty object, or id 0) are
indeed dropped as invalid by the async classifier. -/
theorem c3_classification :
    (∀ data : Json,
      (Aio.handle_data data = Aio.Classified.request ↔
        truthyOpt (jget data "method") = true) ∧
      (Aio.handle_data data = Aio.Classified.responseSuccess ↔
        truthyOpt (jget data "method") = false ∧
        truthyOpt (jget data "result") = true ∧
        truthyOpt (jget data "id") = true) ∧
      (Aio.handle_data data = Aio.Classified.responseError ↔
        truthyOpt (jget data "method") = false ∧
        (truthyOpt (jget data "result") = false ∨
          truthyOpt (jget data "id") = false) ∧
        truthyOpt (jget data "error") = true ∧
        truthyOpt (jget data "id") = true)) ∧
    (∀ obj : Json,
      (Rpc.handle_dispatch obj = Rpc.RpcRoute.request ↔
        jhas obj "method" = true) ∧
      (Rpc.handle_dispatch obj = Rpc.RpcRoute.response ↔
        jhas obj "method" = false ∧ jhas obj "error" = false) ∧
      (Rpc.handle_dispatch obj = Rpc.RpcRoute.error ↔
        jhas obj "method" = false ∧ jhas obj "error" = true)) ∧
    (Aio.handle_data (Json.obj [("id", Json.num 7), ("result", Json.null)]) =
        Aio.Classified.invalid ∧
      Aio.handle_data
          (Json.obj [("id", Json.num 7), ("result", Json.bool false)]) =
        Aio.Classified.invalid ∧
      Aio.handle_data (Json.obj [("id", Json.num 7), ("result", Json.num 0)]) =
        Aio.Classified.invalid ∧
      Aio.handle_data (Json.obj [("id", Json.num 7), ("result", Json.obj [])]) =
        Aio.Classified.invalid ∧
      Aio.handle_data (Json.obj [("id", Json.num 0), ("result", Json.num 1)]) =
        Aio.Classified.invalid) := by
  refine ⟨?_, ?_, by decide, by decide, by decide, by decide, by decide⟩
  · intro data
    simp only [Aio.handle_data]
    rcases h1 : truthyOpt (jget data "method") <;>
      rcases h2 : truthyOpt (jget data "result") <;>
        rcases h3 : truthyOpt (jget data "id") <;>
          rcases h4 : truthyOpt (jget data "error") <;>
            simp
  · intro obj
    simp only [Rpc.handle_dispatch]
    rcases h1 : jhas obj "method" <;>
      rcases h2 : jhas obj "error" <;>
        simp

/-- C4: refuted for the async read loop. The try block of read_stdin
catches only asyncio.TimeoutError, so a line that is not valid JSON
raises out of the loop: after the malformed line "not json" the loop is
dead and the following well-formed line, which alone decodes fine, is
never decoded nor dispatched. -/
theorem c4_counterexample :
    Aio.read_stdin_loop
        [Aio.ReadEvent.line "not json",
          Aio.ReadEvent.line "\x7b\"method\": \"x\"\x7d"] = ([], true) ∧
    json_loads "\x7b\"method\": \"x\"\x7d" =
      some (Json.obj [("method", Json.str "x")]) := by
  exact ⟨by decide, by decide⟩

/-- C4 (amended): what the loop really does. A timeout event is swallowed
and the loop continues; a line that decodes is dispatched and the loop
continues with the rest; a line that fails json.loads terminates the loop
at once with nothing from the remaining events processed. -/
theorem c4_read_loop (s : String) (rest : List Aio.ReadEvent) :
    Aio.read_stdin_loop (Aio.ReadEvent.timeout :: rest) = Aio.read_stdin_loop rest ∧
    (json_loads s = none →
      Aio.read_stdin_loop (Aio.ReadEvent.line s :: rest) = ([], true)) ∧
    (∀ j : Json, json_loads s = some j →
      Aio.read_stdin_loop (Aio.ReadEvent.line s :: rest) =
        (j :: (Aio.read_stdin_loop rest).1, (Aio.read_stdin_loop rest).2)) := by
  refine ⟨rfl, ?_, ?_⟩
  · intro h
    simp only [Aio.read_stdin_loop, h]
  · intro j h
    simp only [Aio.read_stdin_loop, h]

theorem c4_read_loop_witness :
    Aio.read_stdin_loop [Aio.ReadEvent.line "not json"] = ([], true) := by
  exact (c4_read_loop "not json" []).2.1 (by decide)

/-- C5: refuted on both clients. In the thread client, resolving a pending
call with the error envelope \x7b"id":0,"error":\x7b"code":-32601,
"message":"Method not found"\x7d\x7d raises an RPCError whose message is
"Method not found (-32601), data: Method not found", not "Method not
found": RPCError.__init__ interpolates the code and the data (which
defaults to err["message"]) into the message. In the async client the
caller never fails at all: handle_response resolves the future with the
whole error envelope as a plain return value. -/
theorem c5_counterexample :
    ((Rpc.handle_error ⟨0, [0], [(0, Rpc.Slot.empty)]⟩
        (Json.obj [("id", Json.num 0),
          ("error", Json.obj [("code", Json.num (-32601)),
            ("message", Json.str "Method not found")])])).map
        (fun p => Option.map Rpc.RPCError.message p.2) =
      some (some "Method not found (-32601), data: Method not found") ∧
      "Method not found (-32601), data: Method not found" ≠
        "Method not found") ∧
    Aio.send_request_finish
        (Aio.handle_response
          (Aio.send_request_start [] [("method", Json.str "m")] "t9").1
          (Json.obj [("id", Json.str "t9"),
            ("error", Json.obj [("code", Json.num (-32601)),
              ("message", Json.str "Method not found")])]))
        "t9" =
      some ([], Json.obj [("id", Json.str "t9"),
        ("error", Json.obj [("code", Json.num (-32601)),
          ("message", Json.str "Method not found")])]) := by
  exact ⟨⟨by decide, by decide⟩, by decide⟩

/-- C5 (amended): the thread client does fail the caller with a typed
RPCError built from the taxonomy: when the envelope carries an error with
a numeric code known to get_error, a message, and a numeric id with a
registered callback, handle_error delivers exactly
mkRPCError cls (err data defaulting to the err message), whose message
string is "title (code)" followed by ", data: str(data)" whenever the
data is not None; the taxonomy maps -32601 to the Method-not-found class
titled "Method not found". The async client instead resolves the caller
with the whole error envelope as a plain value. -/
theorem c5_amended :
    (∀ (st : Rpc.EywaState) (res err msgv : Json) (code i : Int)
        (cls : Rpc.ErrClass),
      jget res "error" = some err →
      jget err "code" = some (Json.num code) →
      jget err "message" = some msgv →
      Rpc.get_error code = some cls →
      jget res "id" = some (Json.num i) →
      kvHas st.results i = false →
      st.callbacks.contains i = true →
      Rpc.handle_error st res =
        some (⟨st.i, st.callbacks.erase i, st.results⟩,
          some (Rpc.mkRPCError cls ((jget err "data").getD msgv)))) ∧
    (∀ (cls : Rpc.ErrClass) (d : Json), d ≠ Json.null →
      (Rpc.mkRPCError cls d).message =
        cls.title ++ " (" ++ Rpc.clsCodeStr cls.code ++ ")" ++
          ", data: " ++ pyStr d) ∧
    (Rpc.get_error (-32601) = some Rpc.RPCMethodNotFoundCls ∧
      Rpc.RPCMethodNotFoundCls.title = "Method not found") ∧
    (∀ (cbs : Aio.Callbacks) (env : Json) (tok : String),
      jget env "id" = some (Json.str tok) →
      kvHas cbs tok = true →
      Aio.handle_response cbs env = kvSet cbs tok (some env)) := by
  refine ⟨?_, ?_, ⟨by decide, rfl⟩, ?_⟩
  · intro st res err msgv code i cls herr hcode hmsg hget hid hres hcb
    unfold Rpc.handle_error
    rw [herr]
    dsimp only
    rw [hcode]
    dsimp only
    rw [hmsg]
    dsimp only
    rw [hget]
    dsimp only
    rw [hid]
    dsimp only
    rw [hres]
    simp only [if_false, Bool.false_eq_true, reduceIte]
    rw [hcb]
    simp
  · intro cls d hd
    unfold Rpc.mkRPCError
    rw [if_neg hd]
    dsimp only
    exact (String.append_assoc _ _ _).symm
  · intro cbs env tok hid hhas
    unfold Aio.handle_response
    rw [hid]
    dsimp only
    rw [hhas]
    simp

theorem c5_amended_witness :
    Rpc.handle_error ⟨5, [2], []⟩
        (Json.obj [("id", Json.num 2),
          ("error", Json.obj [("code", Json.num (-32601)),
            ("message", Json.str "Method not found")])]) =
      some (⟨5, [], []⟩,
        some (Rpc.mkRPCError Rpc.RPCMethodNotFoundCls
          (Json.str "Method not found"))) ∧
    (Rpc.mkRPCError Rpc.RPCMethodNotFoundCls
        (Json.str "Method not found")).message =
      "Method not found (-32601), data: Method not found" := by
  constructor
  · have h := c5_amended.1 ⟨5, [2], []⟩
      (Json.obj [("id", Json.num 2),
        ("error", Json.obj [("code", Json.num (-32601)),
          ("message", Json.str "Method not found")])])
      (Json.obj [("code", Json.num (-32601)),
        ("message", Json.str "Method not found")])
      (Json.str "Method not found") (-32601) 2 Rpc.RPCMethodNotFoundCls
      (by decide) (by decide) (by decide) (by decide) (by decide)
      (by decide) (by decide)
    exact h
  · have h := c5_amended.2.1 Rpc.RPCMethodNotFoundCls
      (Json.str "Method not found") (by decide)
    rw [h]
    decide

/-- C6: refuted for the async dispatcher, one of the claim's two sources.
handle_request of eywa/eywa.py only prints when the method has no
registered handler: for method "nope" with id 3 nothing at all is written
back, no -32601 reply. -/
theorem c6_counterexample :
    Aio.handle_request []
        (Json.obj [("method", Json.str "nope"), ("id", Json.num 3),
          ("params", Json.null)]) =
      (false, []) := by
  decide

/-- C6 (amended): the thread dispatcher behaves as claimed. For an
unregistered method m with a numeric id i it writes back exactly the
generate_error(-32601) line carrying m as data; with no id it writes
nothing; the concrete scenario of the spec produces exactly the quoted
envelope. The async dispatcher of eywa/eywa.py never writes a reply for
any request. -/
theorem c6_amended :
    (∀ (handlers : List (String × Rpc.Handler)) (req : Json) (m : String)
        (i : Int),
      jget req "method" = some (Json.str m) →
      kvGet handlers m = none →
      jget req "id" = some (Json.num i) →
      Rpc.handle_request handlers req =
        match Rpc.generate_error (Rpc.IdVal.int i) (-32601) (Json.str m) with
        | some s => [s]
        | none => []) ∧
    (∀ (handlers : List (String × Rpc.Handler)) (req : Json) (m : String),
      jget req "method" = some (Json.str m) →
      kvGet handlers m = none →
      jget req "id" = none →
      Rpc.handle_request handlers req = []) ∧
    Rpc.handle_request []
        (Json.obj [("method", Json.str "nope"), ("id", Json.num 3)]) =
      ["\x7b\"jsonrpc\":\"2.0\",\"id\":3,\"error\":\x7b\"code\":-32601,\"message\":\"Method not found\",\"data\":\"nope\"\x7d\x7d"] ∧
    (∀ (handlers : List String) (data : Json),
      (Aio.handle_request handlers data).2 = []) := by
  refine ⟨?_, ?_, by decide, ?_⟩
  · intro handlers req m i hm hk hid
    unfold Rpc.handle_request
    rw [hm]
    dsimp only
    unfold Rpc.route
    dsimp only
    rw [hk]
    dsimp only
    unfold Rpc.writeBack
    rw [hid]
    dsimp only
    unfold Rpc.errLine
    rfl
  · intro handlers req m hm hk hid
    unfold Rpc.handle_request
    rw [hm]
    dsimp only
    unfold Rpc.route
    dsimp only
    rw [hk]
    dsimp only
    unfold Rpc.writeBack
    rw [hid]
  · intro handlers data
    unfold Aio.handle_request
    rcases h : jget data "method" with _ | v
    · rfl
    · rcases v <;> simp <;> split <;> rfl

theorem c6_amended_witness :
    Rpc.handle_request [] (Json.obj [("method", Json.str "x"),
        ("id", Json.num 7)]) =
      match Rpc.generate_error (Rpc.IdVal.int 7) (-32601) (Json.str "x") with
      | some s => [s]
      | none => [] := by
  exact c6_amended.1 [] (Json.obj [("method", Json.str "x"),
    ("id", Json.num 7)]) "x" 7 (by decide) rfl (by decide)

theorem genreq_fuel (m : String) (id : Rpc.IdVal) (params : Json) :
    jfuel params + 6 ≤
      2 * (Rpc.generate_request m (some id) params).data.length + 2 := by
  have hle := jfuel_le params
  have e1 : ("\x7b\"jsonrpc\":\"2.0\",\"method\":\"" : String).data.length = 27 := rfl
  by_cases hp : params = Json.null
  · subst hp
    simp only [Rpc.generate_request, eq_self_iff_true, if_true, jfuel]
    cases id <;>
      simp only [String.data_append, List.length_append, List.length_cons,
        List.length_nil] <;> omega
  · simp only [Rpc.generate_request, if_neg hp, json_dumps]
    cases id <;>
      simp only [String.data_append, List.length_append, string_mk_data,
        List.length_cons, List.length_nil] <;> omega

/-- C7: refuted as stated for the thread framer. generate_request splices
the method string into the envelope RAW (str.format, not json.dumps), so
a method containing a quote produces a line that is not valid JSON at
all: the roundtrip loses the request entirely. -/
theorem c7_counterexample :
    json_loads
        (Rpc.generate_request "x\"" (some (Rpc.IdVal.int 1)) Json.null) =
      none := by
  decide

/-- C7 (amended): the roundtrip holds for method strings made of plain
characters (no quote, no backslash, no control character): the line
produced by generate_request re-parses to an object whose jsonrpc, method,
id and params members are exactly the originals, for every int-or-string
id and every JSON params value, with the params member omitted when params
is None. The async client serializes with json.dumps, and there the
roundtrip is lossless for every JSON-compatible dict. -/
theorem c7_amended :
    (∀ (m : String), (∀ c ∈ m.data, plainChar c) →
      ∀ (id : Rpc.IdVal) (params : Json),
      json_loads (Rpc.generate_request m (some id) params) =
        some (Json.obj (("jsonrpc", Json.str "2.0") ::
          ("method", Json.str m) :: ("id", Rpc.idJson id) ::
          (if params = Json.null then [] else [("params", params)]))) ∧
      jget (Json.obj (("jsonrpc", Json.str "2.0") ::
          ("method", Json.str m) :: ("id", Rpc.idJson id) ::
          (if params = Json.null then [] else [("params", params)])))
          "method" = some (Json.str m) ∧
      jget (Json.obj (("jsonrpc", Json.str "2.0") ::
          ("method", Json.str m) :: ("id", Rpc.idJson id) ::
          (if params = Json.null then [] else [("params", params)])))
          "id" = some (Rpc.idJson id) ∧
      (params ≠ Json.null →
        jget (Json.obj (("jsonrpc", Json.str "2.0") ::
            ("method", Json.str m) :: ("id", Rpc.idJson id) ::
            [("params", params)])) "params" = some params)) ∧
    (∀ data : List (String × Json),
      json_loads (json_dumps (Json.obj data)) = some (Json.obj data)) := by
  refine ⟨?_, fun data => json_loads_dumps (Json.obj data)⟩
  intro m hm id params
  refine ⟨?_, by simp [jget, kvGet], by simp [jget, kvGet], ?_⟩
  · unfold json_loads
    rw [parse_generate_request m hm id params _ (genreq_fuel m id params)]
    rfl
  · intro hp
    simp [jget, kvGet]

theorem c7_amended_witness :
    json_loads
        (Rpc.generate_request "task.get" (some (Rpc.IdVal.int 0))
          (Json.num 5)) =
      some (Json.obj [("jsonrpc", Json.str "2.0"),
        ("method", Json.str "task.get"), ("id", Json.num 0),
        ("params", Json.num 5)]) := by
  have h := (c7_amended.1 "task.get" (by decide) (Rpc.IdVal.int 0)
    (Json.num 5)).1
  simpa using h

theorem kvHas_false_not_mem {κ α : Type} [DecidableEq κ]
    (l : List (κ × α)) (k : κ) (h : kvHas l k = false) :
    k ∉ l.map Prod.fst := by
  intro hk
  rw [kvHas_of_mem l k hk] at h
  exact absurd h (by decide)

theorem kvSet_keys_nodup {κ α : Type} [DecidableEq κ]
    (l : List (κ × α)) (k : κ) (v : α) (hnod : (l.map Prod.fst).Nodup) :
    ((kvSet l k v).map Prod.fst).Nodup := by
  by_cases hh : kvHas l k = true
  · rw [kvSet_keys_of_has _ _ _ hh]
    exact hnod
  · have hf : kvHas l k = false := by
      revert hh
      cases kvHas l k <;> simp
    rw [kvSet_of_not_has _ _ _ hf, List.map_append]
    simp only [List.map_cons, List.map_nil]
    rw [List.nodup_append]
    refine ⟨hnod, List.nodup_singleton k, ?_⟩
    intro a ha hb
    simp only [List.mem_singleton] at hb
    subst hb
    exact kvHas_false_not_mem l a hf ha

theorem kvSet_keys_subset {κ α : Type} [DecidableEq κ]
    (l : List (κ × α)) (k : κ) (v : α) :
    ∀ a ∈ (kvSet l k v).map Prod.fst, a ∈ l.map Prod.fst ∨ a = k := by
  intro a ha
  by_cases hh : kvHas l k = true
  · rw [kvSet_keys_of_has _ _ _ hh] at ha
    exact .inl ha
  · have hf : kvHas l k = false := by
      revert hh
      cases kvHas l k <;> simp
    rw [kvSet_of_not_has _ _ _ hf, List.map_append] at ha
    rcases List.mem_append.mp ha with h | h
    · exact .inl h
    · simp only [List.map_cons, List.map_nil, List.mem_singleton] at h
      exact .inr h

theorem cbs_append_nodup (st : Rpc.EywaState) (h2 : st.callbacks.Nodup)
    (h4 : ∀ k ∈ st.callbacks, k ≤ st.i) :
    (if st.callbacks.contains (st.i + 1) then st.callbacks
      else st.callbacks ++ [st.i + 1]).Nodup := by
  split
  · exact h2
  · rw [List.nodup_append]
    refine ⟨h2, List.nodup_singleton _, ?_⟩
    intro a ha hb
    simp only [List.mem_singleton] at hb
    subst hb
    have := h4 _ ha
    omega

theorem cbs_append_le (st : Rpc.EywaState)
    (h4 : ∀ k ∈ st.callbacks, k ≤ st.i) :
    ∀ k ∈ (if st.callbacks.contains (st.i + 1) then st.callbacks
      else st.callbacks ++ [st.i + 1]), k ≤ st.i + 1 := by
  intro k hk
  split at hk
  · have := h4 k hk; omega
  · rcases List.mem_append.mp hk with hm | hm
    · have := h4 k hm; omega
    · simp only [List.mem_singleton] at hm; omega

theorem results_set_le (st : Rpc.EywaState)
    (h3 : ∀ k ∈ st.results.map Prod.fst, k ≤ st.i) :
    ∀ k ∈ (kvSet st.results (st.i + 1) Rpc.Slot.empty).map Prod.fst,
      k ≤ st.i + 1 := by
  intro k hk
  rcases kvSet_keys_subset _ _ _ k hk with hm | he
  · have := h3 k hm; omega
  · omega

theorem rpcInv_send (st : Rpc.EywaState) (m : String) (p : Json)
    (hc bp : Bool) (h : RpcInv st) :
    RpcInv (Rpc.send st m p hc bp).1 := by
  obtain ⟨h1, h2, h3, h4⟩ := h
  cases hc <;> cases bp
  · exact ⟨h1, h2, h3, h4⟩
  · have hs : (Rpc.send st m p false true).1 =
        ⟨st.i + 1, st.callbacks,
          kvSet st.results (st.i + 1) Rpc.Slot.empty⟩ := rfl
    rw [hs]
    exact ⟨kvSet_keys_nodup _ _ _ h1, h2, results_set_le st h3,
      fun k hk => by show k ≤ st.i + 1; have := h4 k hk; omega⟩
  · have hs : (Rpc.send st m p true false).1 =
        ⟨st.i + 1,
          (if st.callbacks.contains (st.i + 1) then st.callbacks
            else st.callbacks ++ [st.i + 1]),
          st.results⟩ := rfl
    rw [hs]
    exact ⟨h1, cbs_append_nodup st h2 h4,
      fun k hk => by show k ≤ st.i + 1; have := h3 k hk; omega,
      cbs_append_le st h4⟩
  · have hs : (Rpc.send st m p true true).1 =
        ⟨st.i + 1,
          (if st.callbacks.contains (st.i + 1) then st.callbacks
            else st.callbacks ++ [st.i + 1]),
          kvSet st.results (st.i + 1) Rpc.Slot.empty⟩ := rfl
    rw [hs]
    exact ⟨kvSet_keys_nodup _ _ _ h1, cbs_append_nodup st h2 h4,
      results_set_le st h3, cbs_append_le st h4⟩


theorem handle_response_frame (st st2 : Rpc.EywaState) (res : Json)
    (o : Option Json) (h : Rpc.handle_response st res = some (st2, o)) :
    st2.i = st.i ∧
    (st2.results = st.results ∨ ∃ id v, kvHas st.results id = true ∧
      st2.results = kvSet st.results id (Rpc.Slot.value v)) ∧
    (st2.callbacks = st.callbacks ∨
      ∃ id, st2.callbacks = st.callbacks.erase id) := by
  unfold Rpc.handle_response at h
  split at h
  · exact absurd h (by simp)
  · rename_i id hjd
    split at h
    · split at h
      · exact absurd h (by simp)
      · rename_i v hjv
        by_cases hr : kvHas st.results id = true
        · rw [if_pos hr] at h
          dsimp only at h
          split at h <;> injection h with h <;> injection h with ha hb <;>
            subst ha
          · exact ⟨rfl, .inr ⟨id, v, hr, rfl⟩, .inr ⟨id, rfl⟩⟩
          · exact ⟨rfl, .inr ⟨id, v, hr, rfl⟩, .inl rfl⟩
        · rw [if_neg hr] at h
          dsimp only at h
          split at h <;> injection h with h <;> injection h with ha hb <;>
            subst ha
          · exact ⟨rfl, .inl rfl, .inr ⟨id, rfl⟩⟩
          · exact ⟨rfl, .inl rfl, .inl rfl⟩
    · injection h with h
      injection h with ha hb
      subst ha
      exact ⟨rfl, .inl rfl, .inl rfl⟩
  · injection h with h
    injection h with ha hb
    subst ha
    exact ⟨rfl, .inl rfl, .inl rfl⟩

theorem handle_error_frame (st st2 : Rpc.EywaState) (res : Json)
    (o : Option Rpc.RPCError) (h : Rpc.handle_error st res = some (st2, o)) :
    st2.i = st.i ∧
    (st2.results = st.results ∨ ∃ id e, kvHas st.results id = true ∧
      st2.results = kvSet st.results id (Rpc.Slot.exc e)) ∧
    (st2.callbacks = st.callbacks ∨
      ∃ id, st2.callbacks = st.callbacks.erase id) := by
  unfold Rpc.handle_error at h
  split at h
  · exact absurd h (by simp)
  · split at h
    · split at h
      · exact absurd h (by simp)
      · split at h
        · exact absurd h (by simp)
        · rename_i err _ code _ msgv _ cls _
          split at h
          · exact absurd h (by simp)
          · rename_i id hjd
            by_cases hr : kvHas st.results id = true
            · dsimp only at h
              rw [if_pos hr] at h
              dsimp only at h
              split at h <;> injection h with h <;>
                injection h with ha hb <;> subst ha
              · exact ⟨rfl, .inr ⟨id, _, hr, rfl⟩, .inr ⟨id, rfl⟩⟩
              · exact ⟨rfl, .inr ⟨id, _, hr, rfl⟩, .inl rfl⟩
            · dsimp only at h
              rw [if_neg hr] at h
              split at h <;> injection h with h <;>
                injection h with ha hb <;> subst ha
              · exact ⟨rfl, .inl rfl, .inr ⟨id, rfl⟩⟩
              · exact ⟨rfl, .inl rfl, .inl rfl⟩
          · injection h with h
            injection h with ha hb
            subst ha
            exact ⟨rfl, .inl rfl, .inl rfl⟩
    · exact absurd h (by simp)
    · exact absurd h (by simp)

theorem rpcInv_step (st st2 : Rpc.EywaState) (h : Rpc.Step st st2)
    (hinv : RpcInv st) : RpcInv st2 := by
  obtain ⟨h1, h2, h3, h4⟩ := hinv
  cases h with
  | send m p hc bp => exact rpcInv_send st m p hc bp ⟨h1, h2, h3, h4⟩
  | response res _ _ inv hr =>
    obtain ⟨hi, hres, hcbs⟩ := handle_response_frame st st2 res inv hr
    refine ⟨?_, ?_, ?_, ?_⟩
    · rcases hres with he | ⟨id, v, hh, he⟩
      · rw [he]; exact h1
      · rw [he, kvSet_keys_of_has _ _ _ hh]; exact h1
    · rcases hcbs with he | ⟨id, he⟩
      · rw [he]; exact h2
      · rw [he]; exact List.Nodup.erase _ h2
    · rcases hres with he | ⟨id, v, hh, he⟩
      · rw [he, hi]; exact h3
      · rw [he, kvSet_keys_of_has _ _ _ hh, hi]; exact h3
    · rcases hcbs with he | ⟨id, he⟩
      · rw [he, hi]; exact h4
      · rw [he, hi]
        exact fun k hk => h4 k (List.mem_of_mem_erase hk)
  | error res _ _ inv hr =>
    obtain ⟨hi, hres, hcbs⟩ := handle_error_frame st st2 res inv hr
    refine ⟨?_, ?_, ?_, ?_⟩
    · rcases hres with he | ⟨id, e, hh, he⟩
      · rw [he]; exact h1
      · rw [he, kvSet_keys_of_has _ _ _ hh]; exact h1
    · rcases hcbs with he | ⟨id, he⟩
      · rw [he]; exact h2
      · rw [he]; exact List.Nodup.erase _ h2
    · rcases hres with he | ⟨id, e, hh, he⟩
      · rw [he, hi]; exact h3
      · rw [he, kvSet_keys_of_has _ _ _ hh, hi]; exact h3
    · rcases hcbs with he | ⟨id, he⟩
      · rw [he, hi]; exact h4
      · rw [he, hi]
        exact fun k hk => h4 k (List.mem_of_mem_erase hk)

theorem rpcInv_reachable (st : Rpc.EywaState) (h : Rpc.Reachable st) :
    RpcInv st := by
  induction h with
  | init => exact ⟨List.nodup_nil, List.nodup_nil, by simp [Rpc.initEywa],
      by simp [Rpc.initEywa]⟩
  | step _ hs ih => exact rpcInv_step _ _ hs ih

theorem aio_handle_response_nodup (cbs : Aio.Callbacks) (data : Json)
    (hnod : (cbs.map Prod.fst).Nodup) :
    ((Aio.handle_response cbs data).map Prod.fst).Nodup := by
  unfold Aio.handle_response
  split
  · split
    · exact kvSet_keys_nodup _ _ _ hnod
    · exact hnod
  · exact hnod

theorem aio_nodup_step (c c2 : Aio.Callbacks) (h : Aio.AStep c c2)
    (hnod : (c.map Prod.fst).Nodup) : (c2.map Prod.fst).Nodup := by
  cases h with
  | start data tok _ => exact kvSet_keys_nodup _ _ _ hnod
  | resp data _ => exact aio_handle_response_nodup _ _ hnod
  | finish tok _ _ v hf =>
    unfold Aio.send_request_finish at hf
    split at hf
    · injection hf with hf
      injection hf with ha hb
      subst ha
      exact List.Nodup.sublist (kvDel_keys_sublist _ _) hnod
    · exact absurd hf (by simp)

/-- C8: confirmed. In every state reachable by the thread client the
pending-call tables contain no duplicate id: the _results keys and the
_callbacks list are both duplicate-free, because ids are allocated from
the monotonically incremented counter and every pending id is bounded by
the current counter value. In the async client the rpc_callbacks table
reachable from the empty table likewise never holds two entries with the
same token. -/
theorem c8_unique_ids :
    (∀ st : Rpc.EywaState, Rpc.Reachable st →
      (st.results.map Prod.fst).Nodup ∧ st.callbacks.Nodup) ∧
    (∀ cbs : Aio.Callbacks, Aio.AReachable cbs →
      (cbs.map Prod.fst).Nodup) := by
  constructor
  · intro st h
    obtain ⟨h1, h2, _, _⟩ := rpcInv_reachable st h
    exact ⟨h1, h2⟩
  · intro cbs h
    induction h with
    | init => exact List.nodup_nil
    | step _ hs ih => exact aio_nodup_step _ _ hs ih

theorem c8_unique_ids_witness :
    (((Rpc.send (Rpc.send Rpc.initEywa "a" Json.null true true).1
        "b" Json.null true true).1.results.map Prod.fst).Nodup ∧
      (Rpc.send (Rpc.send Rpc.initEywa "a" Json.null true true).1
        "b" Json.null true true).1.callbacks.Nodup) ∧
    (((Aio.send_request_start
        (Aio.send_request_start [] [] "t1").1 [] "t2").1.map
        Prod.fst).Nodup) := by
  constructor
  · exact c8_unique_ids.1 _
      (Rpc.Reachable.step
        (Rpc.Reachable.step Rpc.Reachable.init
          (Rpc.Step.send "a" Json.null true true Rpc.initEywa))
        (Rpc.Step.send "b" Json.null true true _))
  · exact c8_unique_ids.2 _
      (Aio.AReachable.step
        (Aio.AReachable.step Aio.AReachable.init
          (Aio.AStep.start [] "t1" []))
        (Aio.AStep.start [] "t2" _))

/-- C9: confirmed. Whenever the requestUploadURL step yields a usable URL
with no error, the S3 PUT does not report an error, and the
confirmFileUpload mutation comes back with no error but a falsy confirmed
value (false, null or missing), all three upload functions fail with a
FileUploadError whose message is exactly "Upload confirmation returned
false" (type "upload-error", no HTTP code), and the recorded step trace is
each protocol step exactly once, in order - no step is retried. -/
theorem c9_confirm_false (reqResp confirmResp datav url cerr cdata
      confirmed : Json) (put : Files.PutResult)
    (h1 : Files.pyGet reqResp "error" Json.null = some Json.null)
    (h2 : Files.pyGet reqResp "data" (Json.obj []) = some datav)
    (h3 : Files.pyGet datav "requestUploadURL" Json.null = some url)
    (h4 : truthy url = true)
    (h5 : put.status ≠ "error")
    (h6 : Files.pyGet confirmResp "error" Json.null = some cerr)
    (h7 : truthy cerr = false)
    (h8 : Files.pyGet confirmResp "data" (Json.obj []) = some cdata)
    (h9 : Files.pyGet cdata "confirmFileUpload" Json.null = some confirmed)
    (h10 : truthy confirmed = false) :
    Files.upload reqResp put confirmResp =
      (.error (Files.mkFileUploadError "Upload confirmation returned false"),
        [.requestURL, .putS3, .confirm]) ∧
    Files.upload_stream reqResp put confirmResp =
      (.error (Files.mkFileUploadError "Upload confirmation returned false"),
        [.requestURL, .putS3, .confirm]) ∧
    Files.upload_content reqResp put confirmResp =
      (.error (Files.mkFileUploadError "Upload confirmation returned false"),
        [.requestURL, .putS3, .confirm]) := by
  have key : ∀ wrap : String,
      Files.upload_steps wrap reqResp put confirmResp =
        (.error (Files.mkFileUploadError
          "Upload confirmation returned false"),
          [.requestURL, .putS3, .confirm]) := by
    intro wrap
    unfold Files.upload_steps
    rw [h1]
    dsimp only
    rw [show truthy Json.null = false from rfl]
    simp only [Bool.false_eq_true, reduceIte]
    rw [h2]
    dsimp only
    rw [h3]
    dsimp only
    rw [h4]
    simp only [Bool.not_true, Bool.false_eq_true, reduceIte]
    rw [if_neg h5]
    rw [h6]
    dsimp only
    rw [h7]
    simp only [Bool.false_eq_true, reduceIte]
    rw [h8]
    dsimp only
    rw [h9]
    dsimp only
    rw [h10]
    simp only [Bool.not_false, if_true]
  exact ⟨key _, key _, key _⟩

theorem c9_confirm_false_witness :
    Files.upload
        (Json.obj [("data",
          Json.obj [("requestUploadURL", Json.str "u")])])
        ⟨"success", 200, ""⟩
        (Json.obj [("data",
          Json.obj [("confirmFileUpload", Json.bool false)])]) =
      (.error (Files.mkFileUploadError "Upload confirmation returned false"),
        [.requestURL, .putS3, .confirm]) := by
  exact (c9_confirm_false
    (Json.obj [("data", Json.obj [("requestUploadURL", Json.str "u")])])
    (Json.obj [("data", Json.obj [("confirmFileUpload", Json.bool false)])])
    (Json.obj [("requestUploadURL", Json.str "u")]) (Json.str "u")
    Json.null (Json.obj [("confirmFileUpload", Json.bool false)])
    (Json.bool false) ⟨"success", 200, ""⟩
    (by decide) (by decide) (by decide) (by decide) (by decide)
    (by decide) (by decide) (by decide) (by decide) (by decide)).1

/-- C10: confirmed. send_request assigns data["jsonrpc"] = "2.0" and
data["id"] = the generated token on the caller's own dict, send_notification
assigns only data["jsonrpc"]; every other key maps to exactly what it
mapped to before, and the written line is json.dumps of that same mutated
dict (plus a newline) - no copy is serialized. -/
theorem c10_in_place (data : List (String × Json)) (tok : String)
    (cbs : Aio.Callbacks) :
    (kvGet (Aio.send_request_start cbs data tok).2.1 "jsonrpc" =
        some (Json.str "2.0") ∧
      kvGet (Aio.send_request_start cbs data tok).2.1 "id" =
        some (Json.str tok) ∧
      (∀ k : String, k ≠ "jsonrpc" → k ≠ "id" →
        kvGet (Aio.send_request_start cbs data tok).2.1 k = kvGet data k) ∧
      (Aio.send_request_start cbs data tok).2.2 =
        json_dumps (Json.obj (Aio.send_request_start cbs data tok).2.1) ++
          "\x0a") ∧
    (kvGet (Aio.send_notification data).1 "jsonrpc" =
        some (Json.str "2.0") ∧
      (∀ k : String, k ≠ "jsonrpc" →
        kvGet (Aio.send_notification data).1 k = kvGet data k) ∧
      (Aio.send_notification data).2 =
        json_dumps (Json.obj (Aio.send_notification data).1) ++ "\x0a") := by
  refine ⟨⟨?_, ?_, ?_, rfl⟩, ?_, ?_, rfl⟩
  · show kvGet (kvSet (kvSet data "jsonrpc" (Json.str "2.0")) "id"
      (Json.str tok)) "jsonrpc" = some (Json.str "2.0")
    rw [kvGet_kvSet_ne _ _ _ _ (by decide), kvGet_kvSet_self]
  · exact kvGet_kvSet_self _ _ _
  · intro k hk1 hk2
    show kvGet (kvSet (kvSet data "jsonrpc" (Json.str "2.0")) "id"
      (Json.str tok)) k = kvGet data k
    rw [kvGet_kvSet_ne _ _ _ _ hk2, kvGet_kvSet_ne _ _ _ _ hk1]
  · exact kvGet_kvSet_self _ _ _
  · intro k hk
    exact kvGet_kvSet_ne _ _ _ _ hk

theorem c10_in_place_witness :
    kvGet (Aio.send_request_start [] [("method", Json.str "task.get")]
        "tk").2.1 "method" =
      kvGet [("method", Json.str "task.get")] "method" := by
  exact (c10_in_place [("method", Json.str "task.get")] "tk" []).1.2.2.1
    "method" (by decide) (by decide)
